import Mathlib

/-!
# Verification of the Postgres wallet storage backend

Shallow embedding of `src/experimental/plugins/postgres_storage/src/postgres_storage.rs`
(hyperledger/sovrin-client-rust).  The four-table schema (`metadata`, `items`,
`tags_encrypted`, `tags_plaintext`) is modelled as lists of rows; the `BIGSERIAL`
sequences become explicit `next_id` counters.  Byte strings (`BYTEA` columns and
Rust `Vec<u8>` / `&[u8]` values) are modelled as `List Nat`; `TEXT` columns and
Rust `String`s as `String`.

Write operations return `DbState × Except WalletStorageError Unit`: the state
component is the database after the call.  Operations that the source runs
inside an explicit `wql::transaction::Transaction` (`add`, `add_tags`,
`update_tags`) return the original state on error, which models the rollback of
the uncommitted transaction; single-statement operations (`update`, `delete`,
`set_storage_metadata`) return the post-statement state regardless of the
reported result, matching the source, where no transaction wraps them.
-/

namespace SovrinWallet

/-- Modelled from the spec (§7 error taxonomy): `errors::wallet::WalletStorageError`,
whose definition is outside the scanned sources.  Only the constructors used by
the storage backend are modelled. -/
inductive WalletStorageError where
  | ItemNotFound
  | ItemAlreadyExists
  | AlreadyExists
  | NotFound
  | ConfigError
  | IOError (msg : String)
  | InvalidState (msg : String)
  deriving DecidableEq, Repr

abbrev Res (α : Type) := Except WalletStorageError α

/-- `wql::storage::EncryptedValue`: ciphertext plus a wrapped item key. -/
structure EncryptedValue where
  data : List Nat
  key : List Nat
  deriving DecidableEq, Repr

/-- `wql::storage::Tag`: a tag is exactly one of two disjoint variants. -/
inductive Tag where
  | encrypted (name : List Nat) (value : List Nat)
  | plainText (name : List Nat) (value : String)
  deriving DecidableEq, Repr

/-- `wql::storage::TagName`: a tag name with its variant, used by `delete_tags`. -/
inductive TagName where
  | ofEncrypted (name : List Nat)
  | ofPlain (name : List Nat)
  deriving DecidableEq, Repr

/-- `wql::storage::StorageRecord`: the query-time view of an item.  The `id`
field is the item name; the other fields are materialized on demand. -/
structure StorageRecord where
  id : List Nat
  value : Option EncryptedValue
  type_ : Option (List Nat)
  tags : Option (List Tag)
  deriving DecidableEq, Repr

/-- One row of the `items` table (`_CREATE_SCHEMA`). -/
structure ItemRow where
  wallet_id : String
  id : Nat
  type_ : List Nat
  name : List Nat
  value : List Nat
  key : List Nat
  deriving DecidableEq, Repr

/-- One row of the `tags_encrypted` table. -/
structure TagERow where
  wallet_id : String
  name : List Nat
  value : List Nat
  item_id : Nat
  deriving DecidableEq, Repr

/-- One row of the `tags_plaintext` table. -/
structure TagPRow where
  wallet_id : String
  name : List Nat
  value : String
  item_id : Nat
  deriving DecidableEq, Repr

/-- One row of the `metadata` table. -/
structure MetaRow where
  wallet_id : String
  id : Nat
  value : List Nat
  deriving DecidableEq, Repr

/-- The wallets database: the four tables of `_CREATE_SCHEMA` plus the two
`BIGSERIAL` sequences. -/
structure DbState where
  metadata : List MetaRow
  items : List ItemRow
  tags_encrypted : List TagERow
  tags_plaintext : List TagPRow
  next_id : Nat
  next_meta_id : Nat
  deriving DecidableEq, Repr

/-- `RecordOptions` of the source (serde defaults: type false, value true, tags false). -/
structure RecordOptions where
  retrieve_type : Bool
  retrieve_value : Bool
  retrieve_tags : Bool
  deriving DecidableEq, Repr

def RecordOptions.default : RecordOptions :=
  { retrieve_type := false, retrieve_value := true, retrieve_tags := false }

/-- `SearchOptions` of the source (serde defaults: records true, total count false,
type false, value true, tags false). -/
structure SearchOptions where
  retrieve_records : Bool
  retrieve_total_count : Bool
  retrieve_type : Bool
  retrieve_value : Bool
  retrieve_tags : Bool
  deriving DecidableEq, Repr

def SearchOptions.default : SearchOptions :=
  { retrieve_records := true, retrieve_total_count := false,
    retrieve_type := false, retrieve_value := true, retrieve_tags := false }

/-- `PostgresConfig` of the source. -/
structure PostgresConfig where
  url : String
  deriving DecidableEq, Repr

/-- `PostgresCredentials` of the source. -/
structure PostgresCredentials where
  account : String
  password : String
  admin_account : Option String
  admin_password : Option String
  deriving DecidableEq, Repr

/-- The `WHERE wallet_id = $1 AND type = $2 AND name = $3` filter used by
`get`, `update`, `delete` and the item-id lookups of the tag operations. -/
def itemKeyMatches (w : String) (type_ name : List Nat) (r : ItemRow) : Bool :=
  decide (r.wallet_id = w ∧ r.type_ = type_ ∧ r.name = name)

/-- The `WHERE wallet_id = $1 AND item_id = $2` filter of the per-item tag
queries and deletes on `tags_encrypted`. -/
def tagOfItemE (w : String) (iid : Nat) (r : TagERow) : Bool :=
  decide (r.wallet_id = w ∧ r.item_id = iid)

/-- The `WHERE wallet_id = $1 AND item_id = $2` filter of the per-item tag
queries and deletes on `tags_plaintext`. -/
def tagOfItemP (w : String) (iid : Nat) (r : TagPRow) : Bool :=
  decide (r.wallet_id = w ∧ r.item_id = iid)

/-- The uniqueness constraints hit by the item `INSERT` of `add`:
`ux_items_type_name` on `(wallet_id, type, name)` and the primary key /
`ux_items_wallet_id_id` on `(wallet_id, id)` (the latter never fires for a
fresh `BIGSERIAL` value on a well-formed state). -/
def addItemConflict (st : DbState) (w : String) (type_ name : List Nat) (r : ItemRow) : Bool :=
  decide (r.wallet_id = w ∧ (r.type_ = type_ ∧ r.name = name ∨ r.id = st.next_id))

/-- Key of a tag for the `(wallet_id, name, item_id)` primary keys of the two
tag tables: the variant (`true` = encrypted) paired with the tag name. -/
def tagKey : Tag → Bool × List Nat
  | .encrypted nm _ => (true, nm)
  | .plainText nm _ => (false, nm)

/-- The plain `INSERT` loops of `add` and `update_tags`: insert each tag row in
order into its variant table, failing with `err` as soon as an insert violates
the `(wallet_id, name, item_id)` primary key of its table (`add` maps the
violation to `ItemAlreadyExists`; `update_tags` propagates the backend error). -/
def insertTagRows (err : WalletStorageError) (w : String) (item_id : Nat) :
    List Tag → List TagERow → List TagPRow → Res (List TagERow × List TagPRow)
  | [], te, tp => .ok (te, tp)
  | .encrypted nm v :: rest, te, tp =>
    if te.any (fun r => decide (r.wallet_id = w ∧ r.name = nm ∧ r.item_id = item_id)) then
      .error err
    else
      insertTagRows err w item_id rest (te ++ [⟨w, nm, v, item_id⟩]) tp
  | .plainText nm v :: rest, te, tp =>
    if tp.any (fun r => decide (r.wallet_id = w ∧ r.name = nm ∧ r.item_id = item_id)) then
      .error err
    else
      insertTagRows err w item_id rest te (tp ++ [⟨w, nm, v, item_id⟩])

/-- The `(wallet_id, name, item_id)` primary-key test on `tags_encrypted`. -/
def tagKeyE (w : String) (iid : Nat) (nm : List Nat) (r : TagERow) : Bool :=
  decide (r.wallet_id = w ∧ r.name = nm ∧ r.item_id = iid)

/-- The `(wallet_id, name, item_id)` primary-key test on `tags_plaintext`. -/
def tagKeyP (w : String) (iid : Nat) (nm : List Nat) (r : TagPRow) : Bool :=
  decide (r.wallet_id = w ∧ r.name = nm ∧ r.item_id = iid)

/-- The `DO UPDATE SET value = excluded.value` conflict action on one
`tags_encrypted` row. -/
def updValE (w : String) (iid : Nat) (nm v : List Nat) (r : TagERow) : TagERow :=
  if tagKeyE w iid nm r then { r with value := v } else r

/-- The `DO UPDATE SET value = excluded.value` conflict action on one
`tags_plaintext` row. -/
def updValP (w : String) (iid : Nat) (nm : List Nat) (v : String) (r : TagPRow) : TagPRow :=
  if tagKeyP w iid nm r then { r with value := v } else r

/-- One `INSERT ... ON CONFLICT (wallet_id, name, item_id) DO UPDATE SET value`
upsert, as issued per tag by `add_tags`. -/
def upsertTagRow (w : String) (item_id : Nat) (acc : List TagERow × List TagPRow)
    (tag : Tag) : List TagERow × List TagPRow :=
  match tag with
  | .encrypted nm v =>
    if acc.1.any (tagKeyE w item_id nm) then
      (acc.1.map (updValE w item_id nm v), acc.2)
    else (acc.1 ++ [⟨w, nm, v, item_id⟩], acc.2)
  | .plainText nm v =>
    if acc.2.any (tagKeyP w item_id nm) then
      (acc.1, acc.2.map (updValP w item_id nm v))
    else (acc.1, acc.2 ++ [⟨w, nm, v, item_id⟩])

namespace PostgresStorage

/-- `PostgresStorage::get`: look the item up by `(wallet_id, type, name)`,
then materialize value / type / tags according to `options`.  As in the
source, the returned type is the `type_` argument itself, and the tag list is
the encrypted rows followed by the plaintext rows of the item. -/
def get (st : DbState) (w : String) (type_ id : List Nat) (options : RecordOptions) :
    Res StorageRecord :=
  match st.items.find? (itemKeyMatches w type_ id) with
  | none => .error .ItemNotFound
  | some item =>
    let value := if options.retrieve_value then some ⟨item.value, item.key⟩ else none
    let type2 := if options.retrieve_type then some type_ else none
    let tags :=
      if options.retrieve_tags then
        some
          ((st.tags_encrypted.filter (tagOfItemE w item.id)).map
            (fun r => Tag.encrypted r.name r.value) ++
           (st.tags_plaintext.filter (tagOfItemP w item.id)).map
            (fun r => Tag.plainText r.name r.value))
      else none
    .ok ⟨id, value, type2, tags⟩

/-- The tag-insert phase of `PostgresStorage::add`, reached once the item
`INSERT` succeeded: insert every tag row (`ItemAlreadyExists` on a uniqueness
violation, dropping the transaction), then commit. -/
def addCommit (st : DbState) (w : String) (type_ id : List Nat) (value : EncryptedValue)
    (tags : List Tag) : DbState × Res Unit :=
  match insertTagRows .ItemAlreadyExists w st.next_id tags st.tags_encrypted st.tags_plaintext with
  | .error e => (st, .error e)
  | .ok (te, tp) =>
    ({ st with
        items := st.items ++ [⟨w, st.next_id, type_, id, value.data, value.key⟩],
        tags_encrypted := te,
        tags_plaintext := tp,
        next_id := st.next_id + 1 }, .ok ())

/-- `PostgresStorage::add`: inside one transaction, insert the item row
(`ItemAlreadyExists` on a uniqueness violation), then insert every tag row
(`ItemAlreadyExists` on a uniqueness violation).  On any error the transaction
is dropped without commit, so the state is returned unchanged. -/
def add (st : DbState) (w : String) (type_ id : List Nat) (value : EncryptedValue)
    (tags : List Tag) : DbState × Res Unit :=
  if st.items.any (addItemConflict st w type_ id) then
    (st, .error .ItemAlreadyExists)
  else
    addCommit st w type_ id value tags

/-- The state after the single `UPDATE` statement of `update` ran: every row
matching `(wallet_id, type, name)` gets the new value and key. -/
def updateApply (st : DbState) (w : String) (type_ id : List Nat)
    (value : EncryptedValue) : DbState :=
  { st with
    items := st.items.map
      (fun r => if itemKeyMatches w type_ id r then
          { r with value := value.data, key := value.key } else r) }

/-- `PostgresStorage::update`: one `UPDATE` statement on `items`; the updated
row count decides the result (`1` → ok, `0` → `ItemNotFound`, otherwise
`InvalidState`).  The statement itself runs regardless of the count. -/
def update (st : DbState) (w : String) (type_ id : List Nat) (value : EncryptedValue) :
    DbState × Res Unit :=
  if (st.items.filter (itemKeyMatches w type_ id)).length = 1 then
    (updateApply st w type_ id value, .ok ())
  else if (st.items.filter (itemKeyMatches w type_ id)).length = 0 then
    (updateApply st w type_ id value, .error .ItemNotFound)
  else
    (updateApply st w type_ id value,
     .error (.InvalidState "Postgres returned update row count"))

/-- The upsert phase of `add_tags`, reached once the item id is resolved. -/
def add_tagsCommit (st : DbState) (w : String) (item : ItemRow) (tags : List Tag) :
    DbState × Res Unit :=
  let acc := tags.foldl (upsertTagRow w item.id) (st.tags_encrypted, st.tags_plaintext)
  ({ st with tags_encrypted := acc.1, tags_plaintext := acc.2 }, .ok ())

/-- `PostgresStorage::add_tags`: inside one transaction, resolve the item id
(`ItemNotFound` if missing) and upsert each tag into its variant table. -/
def add_tags (st : DbState) (w : String) (type_ id : List Nat) (tags : List Tag) :
    DbState × Res Unit :=
  match st.items.find? (itemKeyMatches w type_ id) with
  | none => (st, .error .ItemNotFound)
  | some item => add_tagsCommit st w item tags

/-- The replace phase of `update_tags`, reached once the item id is resolved:
delete the item's whole tag set from both tables, then insert the replacement
tags with plain `INSERT`s (a duplicate key inside the replacement propagates
the backend error and rolls the transaction back). -/
def update_tagsCommit (st : DbState) (w : String) (item : ItemRow) (tags : List Tag) :
    DbState × Res Unit :=
  let te0 := st.tags_encrypted.filter (fun r => !(tagOfItemE w item.id r))
  let tp0 := st.tags_plaintext.filter (fun r => !(tagOfItemP w item.id r))
  match insertTagRows (.IOError "unique violation") w item.id tags te0 tp0 with
  | .error e => (st, .error e)
  | .ok (te, tp) =>
    ({ st with tags_encrypted := te, tags_plaintext := tp }, .ok ())

/-- `PostgresStorage::update_tags`: inside one transaction, resolve the item id
(`ItemNotFound` if missing), then fully replace the item's tag set. -/
def update_tags (st : DbState) (w : String) (type_ id : List Nat) (tags : List Tag) :
    DbState × Res Unit :=
  match st.items.find? (itemKeyMatches w type_ id) with
  | none => (st, .error .ItemNotFound)
  | some item => update_tagsCommit st w item tags

/-- `PostgresStorage::delete_tags`: resolve the item id (`ItemNotFound` if
missing), then delete each named tag from the variant table its `TagName`
selects. -/
def delete_tags (st : DbState) (w : String) (type_ id : List Nat)
    (tag_names : List TagName) : DbState × Res Unit :=
  match st.items.find? (itemKeyMatches w type_ id) with
  | none => (st, .error .ItemNotFound)
  | some item =>
    let te := st.tags_encrypted.filter (fun r =>
      !(tag_names.any (fun tn => match tn with
        | .ofEncrypted nm => decide (r.wallet_id = w ∧ r.item_id = item.id ∧ r.name = nm)
        | .ofPlain _ => false)))
    let tp := st.tags_plaintext.filter (fun r =>
      !(tag_names.any (fun tn => match tn with
        | .ofEncrypted _ => false
        | .ofPlain nm => decide (r.wallet_id = w ∧ r.item_id = item.id ∧ r.name = nm))))
    ({ st with tags_encrypted := te, tags_plaintext := tp }, .ok ())

/-- `d` is an `items` row the tag row `(tr_w, tr_iid)` references. -/
def refsItem (tr_w : String) (tr_iid : Nat) (d : ItemRow) : Bool :=
  decide (d.wallet_id = tr_w ∧ d.id = tr_iid)

/-- The state after the `DELETE` statement of `delete` ran: the matching item
rows are removed, and the `ON DELETE CASCADE` foreign keys of both tag tables
remove every tag row referencing a removed item. -/
def deleteApply (st : DbState) (w : String) (type_ id : List Nat) : DbState :=
  { st with
    items := st.items.filter (fun r => !(itemKeyMatches w type_ id r)),
    tags_encrypted := st.tags_encrypted.filter (fun tr =>
      !((st.items.filter (itemKeyMatches w type_ id)).any
        (refsItem tr.wallet_id tr.item_id))),
    tags_plaintext := st.tags_plaintext.filter (fun tr =>
      !((st.items.filter (itemKeyMatches w type_ id)).any
        (refsItem tr.wallet_id tr.item_id))) }

/-- `PostgresStorage::delete`: one `DELETE` statement on `items` whose removed
row count decides the result (`1` → ok, otherwise `ItemNotFound`); the schema's
`ON DELETE CASCADE` foreign keys remove the tag rows of each removed item. -/
def delete (st : DbState) (w : String) (type_ id : List Nat) : DbState × Res Unit :=
  if (st.items.filter (itemKeyMatches w type_ id)).length = 1 then
    (deleteApply st w type_ id, .ok ())
  else
    (deleteApply st w type_ id, .error .ItemNotFound)

/-- `PostgresStorage::get_storage_metadata`: first `metadata` row of the
wallet, `ItemNotFound` when the wallet has none. -/
def get_storage_metadata (st : DbState) (w : String) : Res (List Nat) :=
  match st.metadata.find? (fun r => decide (r.wallet_id = w)) with
  | none => .error .ItemNotFound
  | some row => .ok row.value

/-- `PostgresStorage::set_storage_metadata`: one `UPDATE` statement on
`metadata`; the result is `Ok` for every row count, including zero. -/
def set_storage_metadata (st : DbState) (w : String) (metadata : List Nat) :
    DbState × Res Unit :=
  let rows := st.metadata.map
    (fun r => if r.wallet_id = w then { r with value := metadata } else r)
  ({ st with metadata := rows }, .ok ())

end PostgresStorage

/-- The uniqueness constraints hit by the metadata `INSERT` of
`create_storage`: `ux_metadata_values` on `(wallet_id, value)` and the primary
key / `ux_metadata_wallet_id_id` on `(wallet_id, id)` (the latter never fires
for a fresh `BIGSERIAL` value on a well-formed state). -/
def metaConflict (st : DbState) (id : String) (md : List Nat) (r : MetaRow) : Bool :=
  decide (r.wallet_id = id ∧ (r.value = md ∨ r.id = st.next_meta_id))

/-- The `WHERE wallet_id = $1` filter on `metadata`. -/
def ofWalletM (id : String) (r : MetaRow) : Bool := decide (r.wallet_id = id)

/-- The `WHERE wallet_id = $1` filter on `items`. -/
def ofWalletI (id : String) (r : ItemRow) : Bool := decide (r.wallet_id = id)

/-- The `WHERE wallet_id = $1` filter on `tags_encrypted`. -/
def ofWalletE (id : String) (r : TagERow) : Bool := decide (r.wallet_id = id)

/-- The `WHERE wallet_id = $1` filter on `tags_plaintext`. -/
def ofWalletP (id : String) (r : TagPRow) : Bool := decide (r.wallet_id = id)

namespace PostgresStorageType

/-- `PostgresStorageType::create_storage`: after config/credentials checks
(missing → `ConfigError`; missing admin credentials → silent success), run
`INSERT INTO metadata(wallet_id, value)`.  The insert violates a unique index
(`AlreadyExists`) exactly when a row with the same `(wallet_id, value)` pair
exists (`ux_metadata_values`) or the fresh serial id collides
(`ux_metadata_wallet_id_id`, impossible on a well-formed state). -/
def create_storage (st : DbState) (id : String) (config : Option PostgresConfig)
    (credentials : Option PostgresCredentials) (metadata : List Nat) :
    DbState × Res Unit :=
  match config with
  | none => (st, .error .ConfigError)
  | some _ =>
    match credentials with
    | none => (st, .error .ConfigError)
    | some creds =>
      if creds.admin_account.isNone || creds.admin_password.isNone then
        (st, .ok ())
      else if st.metadata.any (metaConflict st id metadata) then
        (st, .error .AlreadyExists)
      else
        ({ st with metadata := st.metadata ++ [⟨id, st.next_meta_id, metadata⟩],
                   next_meta_id := st.next_meta_id + 1 }, .ok ())

/-- `PostgresStorageType::delete_storage`: after config/credentials checks,
run the four `_DELETE_WALLET` statements in order (`tags_plaintext`,
`tags_encrypted`, `items`, `metadata`).  The loop overwrites `ret` on every
iteration (zero rows removed → `NotFound`, otherwise ok), so only the final
statement — the `metadata` delete — determines the returned result. -/
def delete_storage (st : DbState) (id : String) (config : Option PostgresConfig)
    (credentials : Option PostgresCredentials) : DbState × Res Unit :=
  match config with
  | none => (st, .error .ConfigError)
  | some _ =>
    match credentials with
    | none => (st, .error .ConfigError)
    | some creds =>
      if creds.admin_account.isNone || creds.admin_password.isNone then
        (st, .ok ())
      else
        ({ st with
            metadata := st.metadata.filter (fun r => !(ofWalletM id r)),
            items := st.items.filter (fun r => !(ofWalletI id r)),
            tags_encrypted := st.tags_encrypted.filter (fun r => !(ofWalletE id r)),
            tags_plaintext := st.tags_plaintext.filter (fun r => !(ofWalletP id r)) },
         [(st.tags_plaintext.filter (ofWalletP id)).length,
          (st.tags_encrypted.filter (ofWalletE id)).length,
          (st.items.filter (ofWalletI id)).length,
          (st.metadata.filter (ofWalletM id)).length].foldl
           (fun _ c => if c = 0 then .error .NotFound else .ok ()) (.ok ()))

end PostgresStorageType

/-- Modelled from the spec (§6): the predicate-tree type `wql::language::Operator`
consumed by `search`, whose definition is outside the scanned sources.  A
boolean expression over named tag predicates; encrypted tags are searchable
only by exact match, plaintext tags also support range and membership
predicates.  (The SQL pattern operator `Like` is not modelled.) -/
inductive Operator where
  | andOp (a b : Operator)
  | orOp (a b : Operator)
  | notOp (a : Operator)
  | eqEnc (name value : List Nat)
  | neqEnc (name value : List Nat)
  | eqPlain (name : List Nat) (value : String)
  | neqPlain (name : List Nat) (value : String)
  | gtPlain (name : List Nat) (value : String)
  | gtePlain (name : List Nat) (value : String)
  | ltPlain (name : List Nat) (value : String)
  | ltePlain (name : List Nat) (value : String)
  | inPlain (name : List Nat) (values : List String)
  deriving DecidableEq, Repr

/-- Modelled from the spec (§6): evaluation of a predicate tree over one
item's tags, across both variants. -/
def evalOp (st : DbState) (item : ItemRow) : Operator → Bool
  | .andOp a b => evalOp st item a && evalOp st item b
  | .orOp a b => evalOp st item a || evalOp st item b
  | .notOp a => !(evalOp st item a)
  | .eqEnc nm v => st.tags_encrypted.any (fun r =>
      decide (r.wallet_id = item.wallet_id ∧ r.item_id = item.id ∧ r.name = nm ∧ r.value = v))
  | .neqEnc nm v => st.tags_encrypted.any (fun r =>
      decide (r.wallet_id = item.wallet_id ∧ r.item_id = item.id ∧ r.name = nm ∧ r.value ≠ v))
  | .eqPlain nm v => st.tags_plaintext.any (fun r =>
      decide (r.wallet_id = item.wallet_id ∧ r.item_id = item.id ∧ r.name = nm ∧ r.value = v))
  | .neqPlain nm v => st.tags_plaintext.any (fun r =>
      decide (r.wallet_id = item.wallet_id ∧ r.item_id = item.id ∧ r.name = nm ∧ r.value ≠ v))
  | .gtPlain nm v => st.tags_plaintext.any (fun r =>
      decide (r.wallet_id = item.wallet_id ∧ r.item_id = item.id ∧ r.name = nm ∧ v < r.value))
  | .gtePlain nm v => st.tags_plaintext.any (fun r =>
      decide (r.wallet_id = item.wallet_id ∧ r.item_id = item.id ∧ r.name = nm ∧ v ≤ r.value))
  | .ltPlain nm v => st.tags_plaintext.any (fun r =>
      decide (r.wallet_id = item.wallet_id ∧ r.item_id = item.id ∧ r.name = nm ∧ r.value < v))
  | .ltePlain nm v => st.tags_plaintext.any (fun r =>
      decide (r.wallet_id = item.wallet_id ∧ r.item_id = item.id ∧ r.name = nm ∧ r.value ≤ v))
  | .inPlain nm vs => st.tags_plaintext.any (fun r =>
      decide (r.wallet_id = item.wallet_id ∧ r.item_id = item.id ∧ r.name = nm ∧ r.value ∈ vs))

/-- Modelled from the spec (§6): the row set selected by the query text of
`wql::query::wql_to_sql(type_, query, _)` — the items whose type equals the
type filter and whose tags satisfy the predicate tree.  (As in the source,
which carries a `TODO add wallet_id limitation to search`, no wallet filter is
applied: the translate interface receives no wallet id.) -/
def wqlMatching (st : DbState) (type_ : List Nat) (op : Operator) : List ItemRow :=
  st.items.filter (fun r => decide (r.type_ = type_) && evalOp st r op)

/-- Modelled from the spec (§6): the single row returned by the count query of
`wql::query::wql_to_sql_count(type_, query)` — the cardinality of the row set
the record query selects. -/
def wqlCount (st : DbState) (type_ : List Nat) (op : Operator) : Nat :=
  (wqlMatching st type_ op).length

/-- `PostgresStorageIterator`: the lazy result stream.  `rows` is the
materialized result set of the executed statement (`none` when records were
not requested), `hasTagRetriever` records whether a `TagRetriever` was
attached, and `iter_count` is the advance cursor of `next`. -/
structure PostgresStorageIterator where
  rows : Option (List ItemRow)
  hasTagRetriever : Bool
  options : RecordOptions
  total_count : Option Nat
  iter_count : Nat
  deriving DecidableEq, Repr

/-- `TagRetriever::retrieve`: the two reusable prepared statements
(`_PLAIN_TAGS_QUERY` then `_ENCRYPTED_TAGS_QUERY`), which select by `item_id`
alone — as in the source, no wallet filter. -/
def retrieverTags (st : DbState) (id : Nat) : List Tag :=
  (st.tags_plaintext.filter (fun r => decide (r.item_id = id))).map
    (fun r => Tag.plainText r.name r.value) ++
  (st.tags_encrypted.filter (fun r => decide (r.item_id = id))).map
    (fun r => Tag.encrypted r.name r.value)

namespace PostgresStorageIterator

/-- `StorageIterator::next` for `PostgresStorageIterator`: `Ok none` when
records were not requested or the cursor is exhausted; otherwise advance the
cursor and materialize the row per the options (an `InvalidState` error when
tags are requested but no retriever was attached). -/
def next (st : DbState) (it : PostgresStorageIterator) :
    Res (Option StorageRecord) × PostgresStorageIterator :=
  match it.rows with
  | none => (.ok none, it)
  | some l =>
    match l.get? it.iter_count with
    | none => (.ok none, it)
    | some row =>
      let it2 := { it with iter_count := it.iter_count + 1 }
      let value := if it.options.retrieve_value then
          some (⟨row.value, row.key⟩ : EncryptedValue) else none
      if it.options.retrieve_tags && !it.hasTagRetriever then
        (.error (.InvalidState "Fetch tags option set and tag retriever is None"), it2)
      else
        let tags := if it.options.retrieve_tags then some (retrieverTags st row.id) else none
        let type2 := if it.options.retrieve_type then some row.type_ else none
        (.ok (some ⟨row.name, value, type2, tags⟩), it2)

/-- `StorageIterator::get_total_count`: the count computed up front, if any. -/
def get_total_count (it : PostgresStorageIterator) : Res (Option Nat) :=
  .ok it.total_count

end PostgresStorageIterator

namespace PostgresStorage

/-- `PostgresStorage::search`: run the count query first when requested, then
either build an iterator over the executed record query (with a tag retriever
exactly when tags are requested) or an immediately exhausted iterator that
only carries the total count. -/
def search (st : DbState) (_w : String) (type_ : List Nat) (op : Operator)
    (opts : SearchOptions) : PostgresStorageIterator :=
  let total_count := if opts.retrieve_total_count then some (wqlCount st type_ op) else none
  if opts.retrieve_records then
    { rows := some (wqlMatching st type_ op),
      hasTagRetriever := opts.retrieve_tags,
      options := { retrieve_type := opts.retrieve_type,
                   retrieve_value := opts.retrieve_value,
                   retrieve_tags := opts.retrieve_tags },
      total_count := total_count,
      iter_count := 0 }
  else
    { rows := none, hasTagRetriever := false, options := RecordOptions.default,
      total_count := total_count, iter_count := 0 }

end PostgresStorage

/-- The number of records a sequence of `fuel` calls to `next` yields before
exhaustion or an error. -/
def drainCount (st : DbState) : Nat → PostgresStorageIterator → Nat
  | 0, _ => 0
  | Nat.succ fuel, it =>
    match PostgresStorageIterator.next st it with
    | (.ok (some _), it2) => drainCount st fuel it2 + 1
    | _ => 0

/-- Schema invariants guaranteed by `_CREATE_SCHEMA`: the `(wallet_id, type,
name)` and `(wallet_id, id)` unique indexes on `items`, the foreign keys of
both tag tables, and freshness of the two serial sequences. -/
@[reducible] def WellFormed (st : DbState) : Prop :=
  (∀ r ∈ st.items,
    (st.items.filter (itemKeyMatches r.wallet_id r.type_ r.name)).length = 1) ∧
  (∀ r1 ∈ st.items, ∀ r2 ∈ st.items,
    r1.wallet_id = r2.wallet_id → r1.id = r2.id → r1 = r2) ∧
  (∀ r ∈ st.tags_encrypted, ∃ i ∈ st.items,
    i.wallet_id = r.wallet_id ∧ i.id = r.item_id) ∧
  (∀ r ∈ st.tags_plaintext, ∃ i ∈ st.items,
    i.wallet_id = r.wallet_id ∧ i.id = r.item_id) ∧
  (∀ r ∈ st.metadata, r.id < st.next_meta_id) ∧
  (∀ r ∈ st.items, r.id < st.next_id)

/-! ## Helper lemmas about the tag-insert loop -/

/-- The `tags_encrypted` rows the insert loop of `add` / `update_tags` appends. -/
def encRowsOf (w : String) (iid : Nat) : List Tag → List TagERow
  | [] => []
  | .encrypted nm v :: rest => ⟨w, nm, v, iid⟩ :: encRowsOf w iid rest
  | .plainText _ _ :: rest => encRowsOf w iid rest

/-- The `tags_plaintext` rows the insert loop of `add` / `update_tags` appends. -/
def plainRowsOf (w : String) (iid : Nat) : List Tag → List TagPRow
  | [] => []
  | .encrypted _ _ :: rest => plainRowsOf w iid rest
  | .plainText nm v :: rest => ⟨w, nm, v, iid⟩ :: plainRowsOf w iid rest

lemma insertTagRows_error (err : WalletStorageError) (w : String) (iid : Nat) :
    ∀ (T : List Tag) (te : List TagERow) (tp : List TagPRow) (e : WalletStorageError),
    insertTagRows err w iid T te tp = .error e → e = err := by
  intro T
  induction T with
  | nil => intro te tp e h; simp [insertTagRows] at h
  | cons t rest ih =>
    intro te tp e h
    cases t with
    | encrypted nm v =>
      simp only [insertTagRows] at h
      split at h
      · exact (Except.error.inj h).symm
      · exact ih _ _ _ h
    | plainText nm v =>
      simp only [insertTagRows] at h
      split at h
      · exact (Except.error.inj h).symm
      · exact ih _ _ _ h

lemma insertTagRows_ok_shape (err : WalletStorageError) (w : String) (iid : Nat) :
    ∀ (T : List Tag) (te : List TagERow) (tp : List TagPRow)
      (p : List TagERow × List TagPRow),
    insertTagRows err w iid T te tp = .ok p →
    p.1 = te ++ encRowsOf w iid T ∧ p.2 = tp ++ plainRowsOf w iid T := by
  intro T
  induction T with
  | nil =>
    intro te tp p h
    simp only [insertTagRows] at h
    cases h
    simp [encRowsOf, plainRowsOf]
  | cons t rest ih =>
    intro te tp p h
    cases t with
    | encrypted nm v =>
      simp only [insertTagRows] at h
      split at h
      · exact absurd h (by simp)
      · obtain ⟨h1, h2⟩ := ih _ _ _ h
        refine ⟨?_, ?_⟩
        · rw [h1, encRowsOf, List.append_assoc]
          rfl
        · rw [h2, plainRowsOf]
    | plainText nm v =>
      simp only [insertTagRows] at h
      split at h
      · exact absurd h (by simp)
      · obtain ⟨h1, h2⟩ := ih _ _ _ h
        refine ⟨?_, ?_⟩
        · rw [h1, encRowsOf]
        · rw [h2, plainRowsOf, List.append_assoc]
          rfl

lemma insertTagRows_ok_keys (err : WalletStorageError) (w : String) (iid : Nat) :
    ∀ (T : List Tag) (te : List TagERow) (tp : List TagPRow)
      (p : List TagERow × List TagPRow),
    insertTagRows err w iid T te tp = .ok p →
    T.Pairwise (fun a b => tagKey a ≠ tagKey b) ∧
    (∀ nm v, Tag.encrypted nm v ∈ T →
      te.any (fun r => decide (r.wallet_id = w ∧ r.name = nm ∧ r.item_id = iid)) = false) ∧
    (∀ nm v, Tag.plainText nm v ∈ T →
      tp.any (fun r => decide (r.wallet_id = w ∧ r.name = nm ∧ r.item_id = iid)) = false) := by
  intro T
  induction T with
  | nil => intro te tp p _; simp
  | cons t rest ih =>
    intro te tp p h
    cases t with
    | encrypted nm v =>
      simp only [insertTagRows] at h
      split at h
      case isTrue => exact absurd h (by simp)
      case isFalse hc =>
        rw [Bool.not_eq_true] at hc
        obtain ⟨ihPW, ihE, ihP⟩ := ih _ _ _ h
        refine ⟨List.pairwise_cons.mpr ⟨?_, ihPW⟩, ?_, ?_⟩
        · intro b hb heq
          cases b with
          | encrypted nm' v' =>
            have hnm : nm' = nm := by
              simpa [tagKey] using heq.symm
            have := ihE nm' v' hb
            rw [List.any_append, Bool.or_eq_false_iff] at this
            have h2 := this.2
            simp [hnm] at h2
          | plainText nm' v' => simp [tagKey] at heq
        · intro nm' v' hmem
          rcases List.mem_cons.mp hmem with heq | htail
          · cases heq
            exact hc
          · have := ihE nm' v' htail
            rw [List.any_append, Bool.or_eq_false_iff] at this
            exact this.1
        · intro nm' v' hmem
          rcases List.mem_cons.mp hmem with heq | htail
          · cases heq
          · exact ihP nm' v' htail
    | plainText nm v =>
      simp only [insertTagRows] at h
      split at h
      case isTrue => exact absurd h (by simp)
      case isFalse hc =>
        rw [Bool.not_eq_true] at hc
        obtain ⟨ihPW, ihE, ihP⟩ := ih _ _ _ h
        refine ⟨List.pairwise_cons.mpr ⟨?_, ihPW⟩, ?_, ?_⟩
        · intro b hb heq
          cases b with
          | encrypted nm' v' => simp [tagKey] at heq
          | plainText nm' v' =>
            have hnm : nm' = nm := by
              simpa [tagKey] using heq.symm
            have := ihP nm' v' hb
            rw [List.any_append, Bool.or_eq_false_iff] at this
            have h2 := this.2
            simp [hnm] at h2
        · intro nm' v' hmem
          rcases List.mem_cons.mp hmem with heq | htail
          · cases heq
          · exact ihE nm' v' htail
        · intro nm' v' hmem
          rcases List.mem_cons.mp hmem with heq | htail
          · cases heq
            exact hc
          · have := ihP nm' v' htail
            rw [List.any_append, Bool.or_eq_false_iff] at this
            exact this.1

lemma add_of_conflict {st : DbState} {w : String} {t n : List Nat}
    (v : EncryptedValue) (tags : List Tag)
    (hc : st.items.any (addItemConflict st w t n) = true) :
    PostgresStorage.add st w t n v tags = (st, .error .ItemAlreadyExists) := by
  unfold PostgresStorage.add
  rw [hc]
  simp

lemma add_of_no_conflict {st : DbState} {w : String} {t n : List Nat}
    (v : EncryptedValue) (tags : List Tag)
    (hc : st.items.any (addItemConflict st w t n) = false) :
    PostgresStorage.add st w t n v tags = PostgresStorage.addCommit st w t n v tags := by
  unfold PostgresStorage.add
  rw [hc]
  simp

lemma find?_append_of_none {α : Type} (p : α → Bool) {l1 : List α} (l2 : List α)
    (h : ∀ x ∈ l1, p x = false) : (l1 ++ l2).find? p = l2.find? p := by
  rw [List.find?_append]
  have : l1.find? p = none := List.find?_eq_none.mpr (fun x hx => by simp [h x hx])
  rw [this]
  rfl

/-! ## C1: add-then-get round trip -/

/-- C1: for every open wallet handle, type, name, value and tag list such
that no item with `(type, name)` exists in the wallet, after a successful
`add`, a `get` with `retrieveValue` and `retrieveType` enabled succeeds and
returns the very value and type that were inserted. -/
theorem add_get_roundtrip
    (st : DbState) (w : String) (t n : List Nat) (v : EncryptedValue) (tags : List Tag)
    (hno : ∀ r ∈ st.items, ¬(r.wallet_id = w ∧ r.type_ = t ∧ r.name = n))
    (hok : (PostgresStorage.add st w t n v tags).2 = .ok ()) :
    PostgresStorage.get (PostgresStorage.add st w t n v tags).1 w t n
      ⟨true, true, false⟩ = .ok ⟨n, some v, some t, none⟩ := by
  cases hc : st.items.any (addItemConflict st w t n) with
  | true => rw [add_of_conflict v tags hc] at hok; simp at hok
  | false =>
    rw [add_of_no_conflict v tags hc] at hok ⊢
    unfold PostgresStorage.addCommit at hok ⊢
    cases hins : insertTagRows .ItemAlreadyExists w st.next_id tags
        st.tags_encrypted st.tags_plaintext with
    | error e => rw [hins] at hok; simp at hok
    | ok p =>
      obtain ⟨te, tp⟩ := p
      unfold PostgresStorage.get
      have hfind : (st.items ++
          [(⟨w, st.next_id, t, n, v.data, v.key⟩ : ItemRow)]).find?
            (itemKeyMatches w t n) =
          some ⟨w, st.next_id, t, n, v.data, v.key⟩ := by
        rw [find?_append_of_none _ _ (fun x hx => by
          simp only [itemKeyMatches, decide_eq_false_iff_not]
          exact hno x hx)]
        simp [List.find?_cons, itemKeyMatches]
      simp [hfind]

/-- Witness for C1 at a concrete wallet state. -/
theorem add_get_roundtrip_witness :
    PostgresStorage.get
      (PostgresStorage.add ⟨[], [], [], [], 0, 0⟩ "w" [1] [2] ⟨[3], [4]⟩
        [Tag.encrypted [5] [6], Tag.plainText [7] "x"]).1 "w" [1] [2]
      ⟨true, true, false⟩ = .ok ⟨[2], some ⟨[3], [4]⟩, some [1], none⟩ :=
  add_get_roundtrip ⟨[], [], [], [], 0, 0⟩ "w" [1] [2] ⟨[3], [4]⟩
    [Tag.encrypted [5] [6], Tag.plainText [7] "x"] (by simp) (by rfl)

/-! ## C2: uniqueness violations in add are ItemAlreadyExists and atomic -/

/-- C2: a uniqueness violation during `add` — an existing item with the same
`(type, name)`, or a duplicate tag key — yields `ItemAlreadyExists`, and any
failing `add` leaves the wallet state exactly as it was (the transaction rolls
back, so no partially-inserted item or tag row is observable).  Conversely a
successful `add` had no duplicate `(variant, name)` tag keys to insert. -/
theorem add_unique_violation_atomic
    (st : DbState) (w : String) (t n : List Nat) (v : EncryptedValue) (tags : List Tag) :
    ((∃ r ∈ st.items, r.wallet_id = w ∧ r.type_ = t ∧ r.name = n) →
      PostgresStorage.add st w t n v tags = (st, .error .ItemAlreadyExists)) ∧
    (∀ e, (PostgresStorage.add st w t n v tags).2 = .error e →
      e = .ItemAlreadyExists ∧ (PostgresStorage.add st w t n v tags).1 = st) ∧
    ((PostgresStorage.add st w t n v tags).2 = .ok () →
      tags.Pairwise (fun a b => tagKey a ≠ tagKey b)) := by
  refine ⟨?_, ?_, ?_⟩
  · rintro ⟨r, hr, hw, ht, hn⟩
    have hc : st.items.any (addItemConflict st w t n) = true :=
      List.any_eq_true.mpr ⟨r, hr, by simp [addItemConflict, hw, ht, hn]⟩
    exact add_of_conflict v tags hc
  · intro e he
    cases hc : st.items.any (addItemConflict st w t n) with
    | true =>
      rw [add_of_conflict v tags hc] at he ⊢
      simp at he
      exact ⟨he.symm, rfl⟩
    | false =>
      rw [add_of_no_conflict v tags hc] at he ⊢
      unfold PostgresStorage.addCommit at he ⊢
      cases hins : insertTagRows .ItemAlreadyExists w st.next_id tags
          st.tags_encrypted st.tags_plaintext with
      | error e2 =>
        rw [hins] at he
        simp at he ⊢
        cases he
        exact insertTagRows_error _ _ _ _ _ _ _ hins
      | ok p =>
        rw [hins] at he
        obtain ⟨te, tp⟩ := p
        simp at he
  · intro hok
    cases hc : st.items.any (addItemConflict st w t n) with
    | true => rw [add_of_conflict v tags hc] at hok; simp at hok
    | false =>
      rw [add_of_no_conflict v tags hc] at hok
      unfold PostgresStorage.addCommit at hok
      cases hins : insertTagRows .ItemAlreadyExists w st.next_id tags
          st.tags_encrypted st.tags_plaintext with
      | error e => rw [hins] at hok; simp at hok
      | ok p => exact (insertTagRows_ok_keys _ _ _ _ _ _ _ hins).1

/-- Witness for C2: adding an item whose `(type, name)` already exists fails
`ItemAlreadyExists` and changes nothing. -/
theorem add_unique_violation_atomic_witness :
    PostgresStorage.add ⟨[], [⟨"w", 0, [1], [2], [9], [9]⟩], [], [], 1, 0⟩
      "w" [1] [2] ⟨[3], [4]⟩ [] =
      (⟨[], [⟨"w", 0, [1], [2], [9], [9]⟩], [], [], 1, 0⟩,
       .error .ItemAlreadyExists) :=
  (add_unique_violation_atomic ⟨[], [⟨"w", 0, [1], [2], [9], [9]⟩], [], [], 1, 0⟩
      "w" [1] [2] ⟨[3], [4]⟩ []).1
    ⟨⟨"w", 0, [1], [2], [9], [9]⟩, by simp, by simp⟩

/-! ## C3: update_tags is a full atomic replace -/

lemma filter_of_cleared {α : Type} (p : α → Bool) (l : List α) :
    (l.filter (fun r => !(p r))).filter p = [] := by
  rw [List.filter_filter]
  simp

lemma mem_encRowsOf {w : String} {iid : Nat} :
    ∀ {T : List Tag} {r : TagERow}, r ∈ encRowsOf w iid T →
      r.wallet_id = w ∧ r.item_id = iid := by
  intro T
  induction T with
  | nil => intro r hr; simp [encRowsOf] at hr
  | cons t rest ih =>
    intro r hr
    cases t with
    | encrypted nm v =>
      rcases List.mem_cons.mp hr with heq | htail
      · subst heq; exact ⟨rfl, rfl⟩
      · exact ih htail
    | plainText nm v => exact ih hr

lemma mem_plainRowsOf {w : String} {iid : Nat} :
    ∀ {T : List Tag} {r : TagPRow}, r ∈ plainRowsOf w iid T →
      r.wallet_id = w ∧ r.item_id = iid := by
  intro T
  induction T with
  | nil => intro r hr; simp [plainRowsOf] at hr
  | cons t rest ih =>
    intro r hr
    cases t with
    | encrypted nm v => exact ih hr
    | plainText nm v =>
      rcases List.mem_cons.mp hr with heq | htail
      · subst heq; exact ⟨rfl, rfl⟩
      · exact ih htail

lemma mem_tagsOfRows (w : String) (iid : Nat) :
    ∀ (T : List Tag) (tag : Tag),
    (tag ∈ (encRowsOf w iid T).map (fun r => Tag.encrypted r.name r.value) ++
        (plainRowsOf w iid T).map (fun r => Tag.plainText r.name r.value)) ↔
      tag ∈ T := by
  intro T
  induction T with
  | nil => intro tag; simp [encRowsOf, plainRowsOf]
  | cons t rest ih =>
    intro tag
    cases t with
    | encrypted nm v =>
      simp only [encRowsOf, plainRowsOf, List.map_cons, List.cons_append,
        List.mem_cons, List.mem_append] at ih ⊢
      have := ih tag
      tauto
    | plainText nm v =>
      simp only [encRowsOf, plainRowsOf, List.map_cons, List.mem_cons,
        List.mem_append] at ih ⊢
      have := ih tag
      tauto

lemma update_tagsCommit_def (st : DbState) (w : String) (item : ItemRow) (tags : List Tag) :
    PostgresStorage.update_tagsCommit st w item tags =
      match insertTagRows (.IOError "unique violation") w item.id tags
          (st.tags_encrypted.filter (fun r => !(tagOfItemE w item.id r)))
          (st.tags_plaintext.filter (fun r => !(tagOfItemP w item.id r))) with
      | .error e => (st, .error e)
      | .ok (te, tp) =>
        ({ st with tags_encrypted := te, tags_plaintext := tp }, .ok ()) := rfl

/-- C3: `update_tags` is a full, atomic replace.  On a missing item it fails
`ItemNotFound`; on any failure the state (so in particular the prior tag set)
is unchanged; and after a successful `update_tags(T)`, a `get` with
`retrieveTags` enabled returns exactly the tag set `T`, whatever tags the item
had before. -/
theorem update_tags_full_replace
    (st : DbState) (w : String) (t n : List Nat) (T : List Tag) :
    ((∀ r ∈ st.items, ¬(r.wallet_id = w ∧ r.type_ = t ∧ r.name = n)) →
      PostgresStorage.update_tags st w t n T = (st, .error .ItemNotFound)) ∧
    (∀ e, (PostgresStorage.update_tags st w t n T).2 = .error e →
      (PostgresStorage.update_tags st w t n T).1 = st) ∧
    ((PostgresStorage.update_tags st w t n T).2 = .ok () →
      ∃ l, PostgresStorage.get (PostgresStorage.update_tags st w t n T).1 w t n
          ⟨false, false, true⟩ = .ok ⟨n, none, none, some l⟩ ∧
        (∀ tag, tag ∈ l ↔ tag ∈ T)) := by
  refine ⟨?_, ?_, ?_⟩
  · intro hno
    unfold PostgresStorage.update_tags
    have hfind : st.items.find? (itemKeyMatches w t n) = none :=
      List.find?_eq_none.mpr (fun x hx => by
        simp [itemKeyMatches, decide_eq_true_eq]
        intro h1 h2
        intro h3
        exact hno x hx ⟨h1, h2, h3⟩)
    rw [hfind]
  · intro e he
    unfold PostgresStorage.update_tags at he ⊢
    cases hfind : st.items.find? (itemKeyMatches w t n) with
    | none => rfl
    | some item =>
      rw [hfind] at he
      replace he : (PostgresStorage.update_tagsCommit st w item T).2 = .error e := he
      show (PostgresStorage.update_tagsCommit st w item T).1 = st
      rw [update_tagsCommit_def] at he ⊢
      cases hins : insertTagRows (.IOError "unique violation") w item.id T
          (st.tags_encrypted.filter (fun r => !(tagOfItemE w item.id r)))
          (st.tags_plaintext.filter (fun r => !(tagOfItemP w item.id r))) with
      | error e2 => simp [hins]
      | ok p =>
        obtain ⟨te, tp⟩ := p
        simp [hins] at he
  · intro hok
    unfold PostgresStorage.update_tags at hok ⊢
    cases hfind : st.items.find? (itemKeyMatches w t n) with
    | none => rw [hfind] at hok; simp at hok
    | some item =>
      rw [hfind] at hok
      replace hok : (PostgresStorage.update_tagsCommit st w item T).2 = .ok () := hok
      show ∃ l, PostgresStorage.get (PostgresStorage.update_tagsCommit st w item T).1 w t n
          ⟨false, false, true⟩ = .ok ⟨n, none, none, some l⟩ ∧ (∀ tag, tag ∈ l ↔ tag ∈ T)
      rw [update_tagsCommit_def] at hok ⊢
      cases hins : insertTagRows (.IOError "unique violation") w item.id T
          (st.tags_encrypted.filter (fun r => !(tagOfItemE w item.id r)))
          (st.tags_plaintext.filter (fun r => !(tagOfItemP w item.id r))) with
      | error e2 => simp [hins] at hok
      | ok p =>
        obtain ⟨te, tp⟩ := p
        obtain ⟨hte, htp⟩ := insertTagRows_ok_shape _ _ _ _ _ _ _ hins
        simp only at hte htp
        refine ⟨(encRowsOf w item.id T).map (fun r => Tag.encrypted r.name r.value) ++
          (plainRowsOf w item.id T).map (fun r => Tag.plainText r.name r.value), ?_, ?_⟩
        · unfold PostgresStorage.get
          have he2 : te.filter (tagOfItemE w item.id) = encRowsOf w item.id T := by
            rw [hte, List.filter_append, filter_of_cleared]
            rw [List.nil_append, List.filter_eq_self.mpr]
            intro a ha
            have := mem_encRowsOf ha
            simp [tagOfItemE, this.1, this.2]
          have hp2 : tp.filter (tagOfItemP w item.id) = plainRowsOf w item.id T := by
            rw [htp, List.filter_append, filter_of_cleared]
            rw [List.nil_append, List.filter_eq_self.mpr]
            intro a ha
            have := mem_plainRowsOf ha
            simp [tagOfItemP, this.1, this.2]
          simp [hfind, he2, hp2]
        · exact mem_tagsOfRows w item.id T

/-- Witness for C3 at a concrete wallet state: replacing an encrypted tag by a
plaintext tag leaves exactly the replacement set. -/
theorem update_tags_full_replace_witness :
    (PostgresStorage.update_tags
        ⟨[], [⟨"w", 0, [1], [2], [9], [9]⟩], [⟨"w", [5], [6], 0⟩], [], 1, 0⟩
        "w" [1] [2] [Tag.plainText [7] "x"]).2 = .ok () ∧
    ∃ l, PostgresStorage.get
        (PostgresStorage.update_tags
          ⟨[], [⟨"w", 0, [1], [2], [9], [9]⟩], [⟨"w", [5], [6], 0⟩], [], 1, 0⟩
          "w" [1] [2] [Tag.plainText [7] "x"]).1 "w" [1] [2]
        ⟨false, false, true⟩ = .ok ⟨[2], none, none, some l⟩ ∧
      (∀ tag, tag ∈ l ↔ tag ∈ [Tag.plainText [7] "x"]) :=
  ⟨by rfl,
   (update_tags_full_replace
      ⟨[], [⟨"w", 0, [1], [2], [9], [9]⟩], [⟨"w", [5], [6], 0⟩], [], 1, 0⟩
      "w" [1] [2] [Tag.plainText [7] "x"]).2.2 (by rfl)⟩

/-! ## C4: add_tags is additive with overwrite on key collision -/

/-- The first of two options that is `some`. -/
def firstSome {α : Type} (a b : Option α) : Option α :=
  match a with
  | some v => some v
  | none => b

/-- The value of the item's encrypted tag named `nm`, if any. -/
def lookupE (w : String) (iid : Nat) (nm : List Nat) (te : List TagERow) :
    Option (List Nat) :=
  (te.find? (tagKeyE w iid nm)).map (fun r => r.value)

/-- The value of the item's plaintext tag named `nm`, if any. -/
def lookupP (w : String) (iid : Nat) (nm : List Nat) (tp : List TagPRow) :
    Option String :=
  (tp.find? (tagKeyP w iid nm)).map (fun r => r.value)

/-- The value a single tag contributes to the encrypted name `nm`. -/
def encHit (tag : Tag) (nm : List Nat) : Option (List Nat) :=
  match tag with
  | .encrypted nm2 v => if nm2 = nm then some v else none
  | .plainText _ _ => none

/-- The value a single tag contributes to the plaintext name `nm`. -/
def plainHit (tag : Tag) (nm : List Nat) : Option String :=
  match tag with
  | .encrypted _ _ => none
  | .plainText nm2 v => if nm2 = nm then some v else none

/-- The last value a tag list assigns to the encrypted name `nm`. -/
def lastEnc : List Tag → List Nat → Option (List Nat)
  | [], _ => none
  | tg :: rest, nm => firstSome (lastEnc rest nm) (encHit tg nm)

/-- The last value a tag list assigns to the plaintext name `nm`. -/
def lastPlain : List Tag → List Nat → Option String
  | [], _ => none
  | tg :: rest, nm => firstSome (lastPlain rest nm) (plainHit tg nm)

lemma tagKeyE_updValE (w : String) (iid : Nat) (nm nm2 v : List Nat) (r : TagERow) :
    tagKeyE w iid nm (updValE w iid nm2 v r) = tagKeyE w iid nm r := by
  unfold updValE
  cases hk : tagKeyE w iid nm2 r with
  | true => simp [tagKeyE]
  | false => simp

lemma tagKeyP_updValP (w : String) (iid : Nat) (nm nm2 : List Nat) (v : String)
    (r : TagPRow) :
    tagKeyP w iid nm (updValP w iid nm2 v r) = tagKeyP w iid nm r := by
  unfold updValP
  cases hk : tagKeyP w iid nm2 r with
  | true => simp [tagKeyP]
  | false => simp

lemma lookupE_map_hit (w : String) (iid : Nat) (nm v : List Nat) :
    ∀ te : List TagERow, te.any (tagKeyE w iid nm) = true →
      lookupE w iid nm (te.map (updValE w iid nm v)) = some v := by
  intro te
  induction te with
  | nil => intro h; simp at h
  | cons r rest ih =>
    intro hany
    unfold lookupE at ih ⊢
    rw [List.map_cons]
    cases hk : tagKeyE w iid nm r with
    | true =>
      rw [List.find?_cons_of_pos _ (by rw [tagKeyE_updValE]; exact hk)]
      have hupd : updValE w iid nm v r = { r with value := v } := by
        unfold updValE
        rw [hk]
        simp
      rw [hupd]
      rfl
    | false =>
      rw [List.find?_cons_of_neg _ (by rw [tagKeyE_updValE, hk]; simp)]
      rw [List.any_cons, hk, Bool.false_or] at hany
      exact ih hany

lemma lookupP_map_hit (w : String) (iid : Nat) (nm : List Nat) (v : String) :
    ∀ tp : List TagPRow, tp.any (tagKeyP w iid nm) = true →
      lookupP w iid nm (tp.map (updValP w iid nm v)) = some v := by
  intro tp
  induction tp with
  | nil => intro h; simp at h
  | cons r rest ih =>
    intro hany
    unfold lookupP at ih ⊢
    rw [List.map_cons]
    cases hk : tagKeyP w iid nm r with
    | true =>
      rw [List.find?_cons_of_pos _ (by rw [tagKeyP_updValP]; exact hk)]
      have hupd : updValP w iid nm v r = { r with value := v } := by
        unfold updValP
        rw [hk]
        simp
      rw [hupd]
      rfl
    | false =>
      rw [List.find?_cons_of_neg _ (by rw [tagKeyP_updValP, hk]; simp)]
      rw [List.any_cons, hk, Bool.false_or] at hany
      exact ih hany

lemma lookupE_map_other (w : String) (iid : Nat) (nm nm2 v : List Nat)
    (hne : nm2 ≠ nm) :
    ∀ te : List TagERow,
      lookupE w iid nm (te.map (updValE w iid nm2 v)) = lookupE w iid nm te := by
  intro te
  induction te with
  | nil => simp [lookupE]
  | cons r rest ih =>
    unfold lookupE at ih ⊢
    rw [List.map_cons]
    cases hk : tagKeyE w iid nm r with
    | true =>
      rw [List.find?_cons_of_pos _ (by rw [tagKeyE_updValE]; exact hk)]
      rw [List.find?_cons_of_pos _ hk]
      have hk2 : tagKeyE w iid nm2 r = false := by
        cases h3 : tagKeyE w iid nm2 r with
        | false => rfl
        | true =>
          exfalso
          simp [tagKeyE] at hk h3
          exact hne (h3.2.1.symm.trans hk.2.1)
      have : updValE w iid nm2 v r = r := by
        unfold updValE
        rw [hk2]
        simp
      rw [this]
    | false =>
      rw [List.find?_cons_of_neg _ (by rw [tagKeyE_updValE, hk]; simp)]
      rw [List.find?_cons_of_neg _ (by rw [hk]; simp)]
      exact ih

lemma lookupP_map_other (w : String) (iid : Nat) (nm nm2 : List Nat) (v : String)
    (hne : nm2 ≠ nm) :
    ∀ tp : List TagPRow,
      lookupP w iid nm (tp.map (updValP w iid nm2 v)) = lookupP w iid nm tp := by
  intro tp
  induction tp with
  | nil => simp [lookupP]
  | cons r rest ih =>
    unfold lookupP at ih ⊢
    rw [List.map_cons]
    cases hk : tagKeyP w iid nm r with
    | true =>
      rw [List.find?_cons_of_pos _ (by rw [tagKeyP_updValP]; exact hk)]
      rw [List.find?_cons_of_pos _ hk]
      have hk2 : tagKeyP w iid nm2 r = false := by
        cases h3 : tagKeyP w iid nm2 r with
        | false => rfl
        | true =>
          exfalso
          simp [tagKeyP] at hk h3
          exact hne (h3.2.1.symm.trans hk.2.1)
      have : updValP w iid nm2 v r = r := by
        unfold updValP
        rw [hk2]
        simp
      rw [this]
    | false =>
      rw [List.find?_cons_of_neg _ (by rw [tagKeyP_updValP, hk]; simp)]
      rw [List.find?_cons_of_neg _ (by rw [hk]; simp)]
      exact ih

lemma lookupE_append_new (w : String) (iid : Nat) (nm nm2 v : List Nat)
    (te : List TagERow) (hany : te.any (tagKeyE w iid nm2) = false) :
    lookupE w iid nm (te ++ [⟨w, nm2, v, iid⟩]) =
      if nm2 = nm then some v else lookupE w iid nm te := by
  by_cases hnm : nm2 = nm
  · subst hnm
    have hfind : te.find? (tagKeyE w iid nm2) = none :=
      List.find?_eq_none.mpr (fun x hx => by
        have := List.any_eq_false.mp hany x hx
        simpa using this)
    unfold lookupE
    rw [List.find?_append, hfind]
    have : List.find? (tagKeyE w iid nm2) [⟨w, nm2, v, iid⟩] =
        some ⟨w, nm2, v, iid⟩ :=
      List.find?_cons_of_pos _ (by simp [tagKeyE])
    rw [this]
    simp
  · unfold lookupE
    rw [List.find?_append]
    have : List.find? (tagKeyE w iid nm) [⟨w, nm2, v, iid⟩] = none := by
      rw [List.find?_cons_of_neg _ (by simp [tagKeyE, hnm])]
      rfl
    rw [this, Option.or_none]
    simp [hnm]

lemma lookupP_append_new (w : String) (iid : Nat) (nm nm2 : List Nat) (v : String)
    (tp : List TagPRow) (hany : tp.any (tagKeyP w iid nm2) = false) :
    lookupP w iid nm (tp ++ [⟨w, nm2, v, iid⟩]) =
      if nm2 = nm then some v else lookupP w iid nm tp := by
  by_cases hnm : nm2 = nm
  · subst hnm
    have hfind : tp.find? (tagKeyP w iid nm2) = none :=
      List.find?_eq_none.mpr (fun x hx => by
        have := List.any_eq_false.mp hany x hx
        simpa using this)
    unfold lookupP
    rw [List.find?_append, hfind]
    have : List.find? (tagKeyP w iid nm2) [⟨w, nm2, v, iid⟩] =
        some ⟨w, nm2, v, iid⟩ :=
      List.find?_cons_of_pos _ (by simp [tagKeyP])
    rw [this]
    simp
  · unfold lookupP
    rw [List.find?_append]
    have : List.find? (tagKeyP w iid nm) [⟨w, nm2, v, iid⟩] = none := by
      rw [List.find?_cons_of_neg _ (by simp [tagKeyP, hnm])]
      rfl
    rw [this, Option.or_none]
    simp [hnm]

lemma lookupE_upsert (w : String) (iid : Nat) (acc : List TagERow × List TagPRow)
    (tag : Tag) (nm : List Nat) :
    lookupE w iid nm (upsertTagRow w iid acc tag).1 =
      firstSome (encHit tag nm) (lookupE w iid nm acc.1) := by
  cases tag with
  | plainText nm2 v =>
    cases h : acc.2.any (tagKeyP w iid nm2) with
    | true => simp [upsertTagRow, h, encHit, firstSome]
    | false => simp [upsertTagRow, h, encHit, firstSome]
  | encrypted nm2 v =>
    cases hany : acc.1.any (tagKeyE w iid nm2) with
    | true =>
      simp only [upsertTagRow, hany, if_true]
      by_cases hnm : nm2 = nm
      · subst hnm
        rw [lookupE_map_hit w iid nm2 v acc.1 hany]
        simp [encHit, firstSome]
      · rw [lookupE_map_other w iid nm nm2 v hnm acc.1]
        simp [encHit, firstSome, hnm]
    | false =>
      simp only [upsertTagRow, hany, Bool.false_eq_true, if_false]
      rw [lookupE_append_new w iid nm nm2 v acc.1 hany]
      by_cases hnm : nm2 = nm
      · subst hnm; simp [encHit, firstSome]
      · simp [encHit, firstSome, hnm]

lemma lookupP_upsert (w : String) (iid : Nat) (acc : List TagERow × List TagPRow)
    (tag : Tag) (nm : List Nat) :
    lookupP w iid nm (upsertTagRow w iid acc tag).2 =
      firstSome (plainHit tag nm) (lookupP w iid nm acc.2) := by
  cases tag with
  | encrypted nm2 v =>
    cases h : acc.1.any (tagKeyE w iid nm2) with
    | true => simp [upsertTagRow, h, plainHit, firstSome]
    | false => simp [upsertTagRow, h, plainHit, firstSome]
  | plainText nm2 v =>
    cases hany : acc.2.any (tagKeyP w iid nm2) with
    | true =>
      simp only [upsertTagRow, hany, if_true]
      by_cases hnm : nm2 = nm
      · subst hnm
        rw [lookupP_map_hit w iid nm2 v acc.2 hany]
        simp [plainHit, firstSome]
      · rw [lookupP_map_other w iid nm nm2 v hnm acc.2]
        simp [plainHit, firstSome, hnm]
    | false =>
      simp only [upsertTagRow, hany, Bool.false_eq_true, if_false]
      rw [lookupP_append_new w iid nm nm2 v acc.2 hany]
      by_cases hnm : nm2 = nm
      · subst hnm; simp [plainHit, firstSome]
      · simp [plainHit, firstSome, hnm]

lemma lookupE_foldl (w : String) (iid : Nat) :
    ∀ (T : List Tag) (acc : List TagERow × List TagPRow) (nm : List Nat),
    lookupE w iid nm (T.foldl (upsertTagRow w iid) acc).1 =
      firstSome (lastEnc T nm) (lookupE w iid nm acc.1) := by
  intro T
  induction T with
  | nil => intro acc nm; simp [lastEnc, firstSome]
  | cons tg rest ih =>
    intro acc nm
    rw [List.foldl_cons, ih, lookupE_upsert]
    rw [lastEnc]
    cases lastEnc rest nm <;> cases encHit tg nm <;> simp [firstSome]

lemma lookupP_foldl (w : String) (iid : Nat) :
    ∀ (T : List Tag) (acc : List TagERow × List TagPRow) (nm : List Nat),
    lookupP w iid nm (T.foldl (upsertTagRow w iid) acc).2 =
      firstSome (lastPlain T nm) (lookupP w iid nm acc.2) := by
  intro T
  induction T with
  | nil => intro acc nm; simp [lastPlain, firstSome]
  | cons tg rest ih =>
    intro acc nm
    rw [List.foldl_cons, ih, lookupP_upsert]
    rw [lastPlain]
    cases lastPlain rest nm <;> cases plainHit tg nm <;> simp [firstSome]

lemma add_tagsCommit_def (st : DbState) (w : String) (item : ItemRow)
    (tags : List Tag) :
    PostgresStorage.add_tagsCommit st w item tags =
      ({ st with
          tags_encrypted := (tags.foldl (upsertTagRow w item.id)
            (st.tags_encrypted, st.tags_plaintext)).1,
          tags_plaintext := (tags.foldl (upsertTagRow w item.id)
            (st.tags_encrypted, st.tags_plaintext)).2 }, .ok ()) := rfl

/-- C4 counterexample: an item carrying a pre-existing encrypted tag keeps it
across `add_tags(T1)` then `add_tags(T2)` with `T1 = T2 = []`, so its final
tag set is not the union of `T1` and `T2` keyed by `(variant, name)`. -/
theorem add_tags_union_counterexample :
    PostgresStorage.get
      (PostgresStorage.add_tags
        (PostgresStorage.add_tags
          ⟨[], [⟨"w", 0, [1], [2], [9], [9]⟩], [⟨"w", [5], [6], 0⟩], [], 1, 0⟩
          "w" [1] [2] []).1 "w" [1] [2] []).1
      "w" [1] [2] ⟨false, false, true⟩ =
        .ok ⟨[2], none, none, some [Tag.encrypted [5] [6]]⟩ ∧
    Tag.encrypted [5] [6] ∉ (([] : List Tag) ++ ([] : List Tag)) :=
  ⟨rfl, by simp⟩

/-- C4, amended: `add_tags(T1)` then `add_tags(T2)` on an existing item never
errors, and for every `(variant, name)` key the item's final tag value is the
last value `T2` assigns to it, else the last value `T1` assigns to it, else the
item's prior tag value — the union of `T1` and `T2` with latest-wins is laid
over the prior tag set rather than replacing it. -/
theorem add_tags_twice_upsert
    (st : DbState) (w : String) (t n : List Nat) (T1 T2 : List Tag) (item : ItemRow)
    (hfind : st.items.find? (itemKeyMatches w t n) = some item) :
    (PostgresStorage.add_tags st w t n T1).2 = .ok () ∧
    (PostgresStorage.add_tags (PostgresStorage.add_tags st w t n T1).1 w t n T2).2 =
      .ok () ∧
    (∀ nm, lookupE w item.id nm
        (PostgresStorage.add_tags
          (PostgresStorage.add_tags st w t n T1).1 w t n T2).1.tags_encrypted =
      firstSome (lastEnc T2 nm) (firstSome (lastEnc T1 nm)
        (lookupE w item.id nm st.tags_encrypted))) ∧
    (∀ nm, lookupP w item.id nm
        (PostgresStorage.add_tags
          (PostgresStorage.add_tags st w t n T1).1 w t n T2).1.tags_plaintext =
      firstSome (lastPlain T2 nm) (firstSome (lastPlain T1 nm)
        (lookupP w item.id nm st.tags_plaintext))) := by
  have h1 : PostgresStorage.add_tags st w t n T1 =
      PostgresStorage.add_tagsCommit st w item T1 := by
    unfold PostgresStorage.add_tags
    rw [hfind]
  have hst1 : (PostgresStorage.add_tags st w t n T1).1.items = st.items := by
    rw [h1, add_tagsCommit_def]
  have hgen : ∀ s : DbState, s.items = st.items →
      PostgresStorage.add_tags s w t n T2 =
        PostgresStorage.add_tagsCommit s w item T2 := by
    intro s hs
    unfold PostgresStorage.add_tags
    rw [hs, hfind]
  have h2 := hgen _ hst1
  have e1te : (PostgresStorage.add_tags st w t n T1).1.tags_encrypted =
      (T1.foldl (upsertTagRow w item.id) (st.tags_encrypted, st.tags_plaintext)).1 := by
    rw [h1, add_tagsCommit_def]
  have e1tp : (PostgresStorage.add_tags st w t n T1).1.tags_plaintext =
      (T1.foldl (upsertTagRow w item.id) (st.tags_encrypted, st.tags_plaintext)).2 := by
    rw [h1, add_tagsCommit_def]
  have e2te : (PostgresStorage.add_tags
        (PostgresStorage.add_tags st w t n T1).1 w t n T2).1.tags_encrypted =
      (T2.foldl (upsertTagRow w item.id)
        ((PostgresStorage.add_tags st w t n T1).1.tags_encrypted,
         (PostgresStorage.add_tags st w t n T1).1.tags_plaintext)).1 := by
    rw [h2, add_tagsCommit_def]
  have e2tp : (PostgresStorage.add_tags
        (PostgresStorage.add_tags st w t n T1).1 w t n T2).1.tags_plaintext =
      (T2.foldl (upsertTagRow w item.id)
        ((PostgresStorage.add_tags st w t n T1).1.tags_encrypted,
         (PostgresStorage.add_tags st w t n T1).1.tags_plaintext)).2 := by
    rw [h2, add_tagsCommit_def]
  refine ⟨by rw [h1, add_tagsCommit_def], by rw [h2, add_tagsCommit_def], ?_, ?_⟩
  · intro nm
    rw [e2te, lookupE_foldl]
    simp only []
    rw [e1te, lookupE_foldl]
  · intro nm
    rw [e2tp, lookupP_foldl]
    simp only []
    rw [e1tp, lookupP_foldl]

/-- Witness for the amended C4 at a concrete wallet state and key. -/
theorem add_tags_twice_upsert_witness :
    (PostgresStorage.add_tags
        ⟨[], [⟨"w", 0, [1], [2], [9], [9]⟩], [⟨"w", [5], [6], 0⟩], [], 1, 0⟩
        "w" [1] [2] [Tag.encrypted [5] [7]]).2 = .ok () ∧
    lookupE "w" 0 [5]
      (PostgresStorage.add_tags
        (PostgresStorage.add_tags
          ⟨[], [⟨"w", 0, [1], [2], [9], [9]⟩], [⟨"w", [5], [6], 0⟩], [], 1, 0⟩
          "w" [1] [2] [Tag.encrypted [5] [7]]).1
        "w" [1] [2] [Tag.plainText [8] "y"]).1.tags_encrypted =
      firstSome (lastEnc [Tag.plainText [8] "y"] [5])
        (firstSome (lastEnc [Tag.encrypted [5] [7]] [5])
          (lookupE "w" 0 [5] [⟨"w", [5], [6], 0⟩])) :=
  ⟨(add_tags_twice_upsert
      ⟨[], [⟨"w", 0, [1], [2], [9], [9]⟩], [⟨"w", [5], [6], 0⟩], [], 1, 0⟩
      "w" [1] [2] [Tag.encrypted [5] [7]] [Tag.plainText [8] "y"]
      ⟨"w", 0, [1], [2], [9], [9]⟩ (by rfl)).1,
   (add_tags_twice_upsert
      ⟨[], [⟨"w", 0, [1], [2], [9], [9]⟩], [⟨"w", [5], [6], 0⟩], [], 1, 0⟩
      "w" [1] [2] [Tag.encrypted [5] [7]] [Tag.plainText [8] "y"]
      ⟨"w", 0, [1], [2], [9], [9]⟩ (by rfl)).2.2.1 [5]⟩

/-! ## C5: delete removes the item and cascades to its tags -/

lemma deleteApply_items (st : DbState) (w : String) (t n : List Nat) :
    (PostgresStorage.deleteApply st w t n).items =
      st.items.filter (fun r => !(itemKeyMatches w t n r)) := rfl

lemma deleteApply_te (st : DbState) (w : String) (t n : List Nat) :
    (PostgresStorage.deleteApply st w t n).tags_encrypted =
      st.tags_encrypted.filter (fun tr =>
        !((st.items.filter (itemKeyMatches w t n)).any
          (PostgresStorage.refsItem tr.wallet_id tr.item_id))) := rfl

lemma deleteApply_tp (st : DbState) (w : String) (t n : List Nat) :
    (PostgresStorage.deleteApply st w t n).tags_plaintext =
      st.tags_plaintext.filter (fun tr =>
        !((st.items.filter (itemKeyMatches w t n)).any
          (PostgresStorage.refsItem tr.wallet_id tr.item_id))) := rfl

/-- C5: deleting a present item succeeds, a subsequent `get` (with any
options) fails `ItemNotFound`, no tag row referencing the deleted item remains
in either tag table, and no orphaned tag row — one whose item reference no
longer exists — remains either. -/
theorem delete_removes_item_and_tags
    (st : DbState) (w : String) (t n : List Nat)
    (hwf : WellFormed st)
    (hpres : ∃ r ∈ st.items, itemKeyMatches w t n r = true) :
    (PostgresStorage.delete st w t n).2 = .ok () ∧
    (∀ opts, PostgresStorage.get (PostgresStorage.delete st w t n).1 w t n opts =
      .error .ItemNotFound) ∧
    (∀ r ∈ st.items, itemKeyMatches w t n r = true →
      (∀ tr ∈ (PostgresStorage.delete st w t n).1.tags_encrypted,
        ¬(tr.wallet_id = r.wallet_id ∧ tr.item_id = r.id)) ∧
      (∀ tr ∈ (PostgresStorage.delete st w t n).1.tags_plaintext,
        ¬(tr.wallet_id = r.wallet_id ∧ tr.item_id = r.id))) ∧
    (∀ tr ∈ (PostgresStorage.delete st w t n).1.tags_encrypted,
      ∃ i ∈ (PostgresStorage.delete st w t n).1.items,
        i.wallet_id = tr.wallet_id ∧ i.id = tr.item_id) ∧
    (∀ tr ∈ (PostgresStorage.delete st w t n).1.tags_plaintext,
      ∃ i ∈ (PostgresStorage.delete st w t n).1.items,
        i.wallet_id = tr.wallet_id ∧ i.id = tr.item_id) := by
  obtain ⟨r0, hr0, hk0⟩ := hpres
  obtain ⟨hw0, ht0, hn0⟩ : r0.wallet_id = w ∧ r0.type_ = t ∧ r0.name = n := by
    simpa [itemKeyMatches] using hk0
  have hlen : (st.items.filter (itemKeyMatches w t n)).length = 1 := by
    have := hwf.1 r0 hr0
    rw [hw0, ht0, hn0] at this
    exact this
  have hdel : PostgresStorage.delete st w t n = (PostgresStorage.deleteApply st w t n, .ok ()) := by
    unfold PostgresStorage.delete
    rw [if_pos hlen]
  rw [hdel]
  refine ⟨rfl, ?_, ?_, ?_, ?_⟩
  · intro opts
    unfold PostgresStorage.get
    have hfind : (PostgresStorage.deleteApply st w t n).items.find? (itemKeyMatches w t n) = none := by
      rw [deleteApply_items]
      refine List.find?_eq_none.mpr (fun x hx => ?_)
      have := (List.mem_filter.mp hx).2
      simp only [Bool.not_eq_true'] at this
      simp [this]
    rw [hfind]
  · intro r hr hk
    constructor
    · intro tr htr
      rw [deleteApply_te] at htr
      have hsur := (List.mem_filter.mp htr).2
      simp only [Bool.not_eq_true'] at hsur
      have hall := List.any_eq_false.mp hsur
      have hrm : r ∈ st.items.filter (itemKeyMatches w t n) :=
        List.mem_filter.mpr ⟨hr, hk⟩
      have := hall r hrm
      simp only [PostgresStorage.refsItem, decide_eq_true_eq] at this
      rintro ⟨h1, h2⟩
      exact this ⟨h1.symm, h2.symm⟩
    · intro tr htr
      rw [deleteApply_tp] at htr
      have hsur := (List.mem_filter.mp htr).2
      simp only [Bool.not_eq_true'] at hsur
      have hall := List.any_eq_false.mp hsur
      have hrm : r ∈ st.items.filter (itemKeyMatches w t n) :=
        List.mem_filter.mpr ⟨hr, hk⟩
      have := hall r hrm
      simp only [PostgresStorage.refsItem, decide_eq_true_eq] at this
      rintro ⟨h1, h2⟩
      exact this ⟨h1.symm, h2.symm⟩
  · intro tr htr
    rw [deleteApply_te] at htr
    obtain ⟨htr0, hsur⟩ := List.mem_filter.mp htr
    simp only [Bool.not_eq_true'] at hsur
    obtain ⟨i, hi, hiw, hiid⟩ := hwf.2.2.1 tr htr0
    refine ⟨i, ?_, hiw, hiid⟩
    rw [deleteApply_items]
    refine List.mem_filter.mpr ⟨hi, ?_⟩
    simp only [Bool.not_eq_true']
    cases hki : itemKeyMatches w t n i with
    | false => rfl
    | true =>
      exfalso
      have := List.any_eq_false.mp hsur i (List.mem_filter.mpr ⟨hi, hki⟩)
      simp only [PostgresStorage.refsItem, decide_eq_true_eq] at this
      exact this ⟨hiw, hiid⟩
  · intro tr htr
    rw [deleteApply_tp] at htr
    obtain ⟨htr0, hsur⟩ := List.mem_filter.mp htr
    simp only [Bool.not_eq_true'] at hsur
    obtain ⟨i, hi, hiw, hiid⟩ := hwf.2.2.2.1 tr htr0
    refine ⟨i, ?_, hiw, hiid⟩
    rw [deleteApply_items]
    refine List.mem_filter.mpr ⟨hi, ?_⟩
    simp only [Bool.not_eq_true']
    cases hki : itemKeyMatches w t n i with
    | false => rfl
    | true =>
      exfalso
      have := List.any_eq_false.mp hsur i (List.mem_filter.mpr ⟨hi, hki⟩)
      simp only [PostgresStorage.refsItem, decide_eq_true_eq] at this
      exact this ⟨hiw, hiid⟩

/-- Witness for C5 at a concrete wallet state with one item and one tag of
each variant. -/
theorem delete_removes_item_and_tags_witness :
    (PostgresStorage.delete
      ⟨[], [⟨"w", 0, [1], [2], [9], [9]⟩], [⟨"w", [5], [6], 0⟩],
       [⟨"w", [7], "x", 0⟩], 1, 0⟩ "w" [1] [2]).2 = .ok () ∧
    PostgresStorage.get
      (PostgresStorage.delete
        ⟨[], [⟨"w", 0, [1], [2], [9], [9]⟩], [⟨"w", [5], [6], 0⟩],
         [⟨"w", [7], "x", 0⟩], 1, 0⟩ "w" [1] [2]).1 "w" [1] [2]
      ⟨true, true, true⟩ = .error .ItemNotFound :=
  ⟨(delete_removes_item_and_tags
      ⟨[], [⟨"w", 0, [1], [2], [9], [9]⟩], [⟨"w", [5], [6], 0⟩],
       [⟨"w", [7], "x", 0⟩], 1, 0⟩ "w" [1] [2] (by decide)
      ⟨⟨"w", 0, [1], [2], [9], [9]⟩, by decide, by decide⟩).1,
   (delete_removes_item_and_tags
      ⟨[], [⟨"w", 0, [1], [2], [9], [9]⟩], [⟨"w", [5], [6], 0⟩],
       [⟨"w", [7], "x", 0⟩], 1, 0⟩ "w" [1] [2] (by decide)
      ⟨⟨"w", 0, [1], [2], [9], [9]⟩, by decide, by decide⟩).2.1 ⟨true, true, true⟩⟩

/-! ## C6: update result is decided by the updated row count -/

lemma map_if_eq_self {α : Type} (p : α → Bool) (f : α → α) :
    ∀ l : List α, (∀ x ∈ l, p x = false) →
      (l.map (fun r => if p r then f r else r)) = l := by
  intro l
  induction l with
  | nil => intro h; rfl
  | cons a rest ih =>
    intro h
    rw [List.map_cons, h a (List.mem_cons_self a rest)]
    simp only [Bool.false_eq_true, if_false]
    rw [ih (fun x hx => h x (List.mem_cons_of_mem a hx))]

/-- C6: one `UPDATE` statement; exactly one matching row means success, zero
matching rows means `ItemNotFound` with the wallet state unchanged, and more
than one matching row surfaces an internal-state (`InvalidState`) error. -/
theorem update_rowcount_semantics
    (st : DbState) (w : String) (t n : List Nat) (v : EncryptedValue) :
    ((st.items.filter (itemKeyMatches w t n)).length = 1 →
      (PostgresStorage.update st w t n v).2 = .ok ()) ∧
    ((st.items.filter (itemKeyMatches w t n)).length = 0 →
      PostgresStorage.update st w t n v = (st, .error .ItemNotFound)) ∧
    (1 < (st.items.filter (itemKeyMatches w t n)).length →
      ∃ msg, (PostgresStorage.update st w t n v).2 = .error (.InvalidState msg)) := by
  refine ⟨?_, ?_, ?_⟩
  · intro h1
    unfold PostgresStorage.update
    rw [if_pos h1]
  · intro h0
    unfold PostgresStorage.update
    rw [if_neg (by omega), if_pos h0]
    have hnil : st.items.filter (itemKeyMatches w t n) = [] :=
      List.length_eq_zero.mp h0
    have hnone : ∀ x ∈ st.items, itemKeyMatches w t n x = false := by
      intro x hx
      have := List.filter_eq_nil_iff.mp hnil x hx
      simpa using this
    have happ : PostgresStorage.updateApply st w t n v = st := by
      unfold PostgresStorage.updateApply
      rw [map_if_eq_self _ _ _ hnone]
    rw [happ]
  · intro hgt
    unfold PostgresStorage.update
    rw [if_neg (by omega), if_neg (by omega)]
    exact ⟨_, rfl⟩

/-- Witness for C6: a present item is updated successfully, a missing one
fails `ItemNotFound` and leaves the state unchanged. -/
theorem update_rowcount_semantics_witness :
    (PostgresStorage.update ⟨[], [⟨"w", 0, [1], [2], [9], [9]⟩], [], [], 1, 0⟩
      "w" [1] [2] ⟨[3], [4]⟩).2 = .ok () ∧
    PostgresStorage.update ⟨[], [⟨"w", 0, [1], [2], [9], [9]⟩], [], [], 1, 0⟩
      "w" [1] [7] ⟨[3], [4]⟩ =
      (⟨[], [⟨"w", 0, [1], [2], [9], [9]⟩], [], [], 1, 0⟩, .error .ItemNotFound) :=
  ⟨(update_rowcount_semantics ⟨[], [⟨"w", 0, [1], [2], [9], [9]⟩], [], [], 1, 0⟩
      "w" [1] [2] ⟨[3], [4]⟩).1 (by decide),
   (update_rowcount_semantics ⟨[], [⟨"w", 0, [1], [2], [9], [9]⟩], [], [], 1, 0⟩
      "w" [1] [7] ⟨[3], [4]⟩).2.1 (by decide)⟩

/-! ## C10: set_storage_metadata silently no-ops on a missing row -/

lemma map_if_eq_self_prop {α : Type} (p : α → Prop) [DecidablePred p] (f : α → α) :
    ∀ l : List α, (∀ x ∈ l, ¬p x) →
      (l.map (fun r => if p r then f r else r)) = l := by
  intro l
  induction l with
  | nil => intro h; rfl
  | cons a rest ih =>
    intro h
    rw [List.map_cons, if_neg (h a (List.mem_cons_self a rest))]
    rw [ih (fun x hx => h x (List.mem_cons_of_mem a hx))]

/-- C10: on a wallet whose `metadata` row is missing, `set_storage_metadata`
returns success while neither creating a row nor changing anything — a silent
no-op — whereas `get_storage_metadata` on the same missing row fails
`ItemNotFound`. -/
theorem set_metadata_missing_row_noop
    (st : DbState) (w : String) (b : List Nat)
    (hno : ∀ r ∈ st.metadata, r.wallet_id ≠ w) :
    PostgresStorage.set_storage_metadata st w b = (st, .ok ()) ∧
    PostgresStorage.get_storage_metadata st w = .error .ItemNotFound := by
  constructor
  · unfold PostgresStorage.set_storage_metadata
    rw [map_if_eq_self_prop _ _ _ hno]
  · unfold PostgresStorage.get_storage_metadata
    have hfind : st.metadata.find? (fun r => decide (r.wallet_id = w)) = none :=
      List.find?_eq_none.mpr (fun x hx => by simp [hno x hx])
    rw [hfind]

/-- Witness for C10: a wallet whose metadata row belongs to another wallet. -/
theorem set_metadata_missing_row_noop_witness :
    PostgresStorage.set_storage_metadata ⟨[⟨"other", 0, [1]⟩], [], [], [], 0, 1⟩
      "w" [2] = (⟨[⟨"other", 0, [1]⟩], [], [], [], 0, 1⟩, .ok ()) ∧
    PostgresStorage.get_storage_metadata ⟨[⟨"other", 0, [1]⟩], [], [], [], 0, 1⟩
      "w" = .error .ItemNotFound :=
  set_metadata_missing_row_noop ⟨[⟨"other", 0, [1]⟩], [], [], [], 0, 1⟩ "w" [2]
    (by decide)

/-! ## C7: create_storage and the metadata uniqueness constraint -/

lemma create_storage_of_admin (st : DbState) (id : String) (cfg : PostgresConfig)
    (creds : PostgresCredentials) (md : List Nat)
    (ha : creds.admin_account.isNone = false)
    (hp : creds.admin_password.isNone = false) :
    PostgresStorageType.create_storage st id (some cfg) (some creds) md =
      if st.metadata.any (metaConflict st id md) then (st, .error .AlreadyExists)
      else
        ({ st with
            metadata := st.metadata ++ [⟨id, st.next_meta_id, md⟩],
            next_meta_id := st.next_meta_id + 1 }, .ok ()) := by
  have hred : PostgresStorageType.create_storage st id (some cfg) (some creds) md =
      if creds.admin_account.isNone || creds.admin_password.isNone then (st, .ok ())
      else if st.metadata.any (metaConflict st id md) then (st, .error .AlreadyExists)
      else
        ({ st with
            metadata := st.metadata ++ [⟨id, st.next_meta_id, md⟩],
            next_meta_id := st.next_meta_id + 1 }, .ok ()) := rfl
  rw [hred, ha, hp]
  simp

/-- C7 counterexample: a `metadata` row for wallet `"w"` exists (with value
`[1]`), yet a second `create` for `"w"` with a different metadata value `[2]`
succeeds instead of failing `AlreadyExists` — the unique index is on
`(wallet_id, value)`, not on the wallet id alone. -/
theorem create_storage_counterexample :
    (PostgresStorageType.create_storage ⟨[⟨"w", 0, [1]⟩], [], [], [], 0, 1⟩ "w"
      (some ⟨"url"⟩) (some ⟨"a", "p", some "adm", some "apw"⟩) [2]).2 = .ok () ∧
    (∃ r ∈ ([⟨"w", 0, [1]⟩] : List MetaRow), r.wallet_id = "w") :=
  ⟨rfl, ⟨⟨"w", 0, [1]⟩, by simp, rfl⟩⟩

/-- C7, amended: with admin credentials present, `create` fails
`AlreadyExists` when a `metadata` row with the same `(wallet_id, value)` pair
already exists (leaving the state unchanged); when no row with that pair (and
no serial clash, which a well-formed state excludes) exists, it succeeds and
inserts the row — in particular a second `create` for the same wallet with a
different metadata value succeeds and adds a second row. -/
theorem create_storage_alreadyexists_semantics
    (st : DbState) (id : String) (cfg : PostgresConfig) (creds : PostgresCredentials)
    (md : List Nat) (hwf : WellFormed st)
    (ha : creds.admin_account.isNone = false)
    (hp : creds.admin_password.isNone = false) :
    ((∃ r ∈ st.metadata, r.wallet_id = id ∧ r.value = md) →
      PostgresStorageType.create_storage st id (some cfg) (some creds) md =
        (st, .error .AlreadyExists)) ∧
    ((∀ r ∈ st.metadata, ¬(r.wallet_id = id ∧ r.value = md)) →
      (PostgresStorageType.create_storage st id (some cfg) (some creds) md).2 =
        .ok () ∧
      ∃ r ∈ (PostgresStorageType.create_storage st id
          (some cfg) (some creds) md).1.metadata,
        r.wallet_id = id ∧ r.value = md) := by
  rw [create_storage_of_admin st id cfg creds md ha hp]
  constructor
  · rintro ⟨r, hr, hw, hv⟩
    have hc : st.metadata.any (metaConflict st id md) = true :=
      List.any_eq_true.mpr ⟨r, hr, by simp [metaConflict, hw, hv]⟩
    rw [hc]
    simp
  · intro hnone
    have hc : st.metadata.any (metaConflict st id md) = false := by
      rw [List.any_eq_false]
      intro r hr
      simp only [metaConflict, decide_eq_true_eq]
      rintro ⟨hw2, hor⟩
      rcases hor with hv2 | hid2
      · exact hnone r hr ⟨hw2, hv2⟩
      · have := hwf.2.2.2.2.1 r hr
        omega
    rw [hc]
    simp only [Bool.false_eq_true, if_false]
    constructor
    · trivial
    · exact ⟨⟨id, st.next_meta_id, md⟩, by simp, rfl, rfl⟩

/-- Witness for the amended C7: a second `create` with the same metadata value
fails `AlreadyExists` and changes nothing. -/
theorem create_storage_alreadyexists_semantics_witness :
    PostgresStorageType.create_storage ⟨[⟨"w", 0, [1]⟩], [], [], [], 0, 1⟩ "w"
      (some ⟨"url"⟩) (some ⟨"a", "p", some "adm", some "apw"⟩) [1] =
      (⟨[⟨"w", 0, [1]⟩], [], [], [], 0, 1⟩, .error .AlreadyExists) :=
  (create_storage_alreadyexists_semantics ⟨[⟨"w", 0, [1]⟩], [], [], [], 0, 1⟩ "w"
      ⟨"url"⟩ ⟨"a", "p", some "adm", some "apw"⟩ [1] (by decide) (by rfl)
      (by rfl)).1
    ⟨⟨"w", 0, [1]⟩, by simp, rfl, rfl⟩

/-! ## C8: delete_storage result is decided only by the final delete -/

lemma delete_storage_of_admin (st : DbState) (id : String) (cfg : PostgresConfig)
    (creds : PostgresCredentials)
    (ha : creds.admin_account.isNone = false)
    (hp : creds.admin_password.isNone = false) :
    PostgresStorageType.delete_storage st id (some cfg) (some creds) =
      ({ st with
          metadata := st.metadata.filter (fun r => !(ofWalletM id r)),
          items := st.items.filter (fun r => !(ofWalletI id r)),
          tags_encrypted := st.tags_encrypted.filter (fun r => !(ofWalletE id r)),
          tags_plaintext := st.tags_plaintext.filter (fun r => !(ofWalletP id r)) },
       if (st.metadata.filter (ofWalletM id)).length = 0 then .error .NotFound
       else .ok ()) := by
  have hred : PostgresStorageType.delete_storage st id (some cfg) (some creds) =
      if creds.admin_account.isNone || creds.admin_password.isNone then (st, .ok ())
      else
        ({ st with
            metadata := st.metadata.filter (fun r => !(ofWalletM id r)),
            items := st.items.filter (fun r => !(ofWalletI id r)),
            tags_encrypted := st.tags_encrypted.filter (fun r => !(ofWalletE id r)),
            tags_plaintext := st.tags_plaintext.filter (fun r => !(ofWalletP id r)) },
         [(st.tags_plaintext.filter (ofWalletP id)).length,
          (st.tags_encrypted.filter (ofWalletE id)).length,
          (st.items.filter (ofWalletI id)).length,
          (st.metadata.filter (ofWalletM id)).length].foldl
           (fun _ c => if c = 0 then .error .NotFound else .ok ()) (.ok ())) := rfl
  rw [hred, ha, hp]
  simp [List.foldl]

/-- C8 counterexample: a wallet with an item row but no `metadata` row — the
call removes the item (something was removed) yet returns `NotFound`, because
only the last `DELETE` (on `metadata`) decides the result. -/
theorem delete_storage_counterexample :
    (PostgresStorageType.delete_storage ⟨[], [⟨"w", 0, [1], [2], [3], [4]⟩], [], [], 1, 0⟩
      "w" (some ⟨"url"⟩) (some ⟨"a", "p", some "adm", some "apw"⟩)).2 =
      .error .NotFound ∧
    (PostgresStorageType.delete_storage ⟨[], [⟨"w", 0, [1], [2], [3], [4]⟩], [], [], 1, 0⟩
      "w" (some ⟨"url"⟩) (some ⟨"a", "p", some "adm", some "apw"⟩)).1.items = [] ∧
    ([⟨"w", 0, [1], [2], [3], [4]⟩] : List ItemRow) ≠ [] :=
  ⟨rfl, rfl, by simp⟩

/-- C8, amended: with admin credentials present, `delete_storage` removes the
wallet's rows from all four tables (leaving other wallets' rows in place), but
it returns `NotFound` exactly when the final statement — the `metadata`
delete — removed zero rows, i.e. when the wallet had no `metadata` row,
regardless of whether item or tag rows were removed. -/
theorem delete_storage_notfound_semantics
    (st : DbState) (id : String) (cfg : PostgresConfig) (creds : PostgresCredentials)
    (ha : creds.admin_account.isNone = false)
    (hp : creds.admin_password.isNone = false) :
    ((PostgresStorageType.delete_storage st id (some cfg) (some creds)).2 =
        .error .NotFound ↔ ∀ r ∈ st.metadata, r.wallet_id ≠ id) ∧
    (∀ r ∈ (PostgresStorageType.delete_storage st id
        (some cfg) (some creds)).1.metadata, r.wallet_id ≠ id) ∧
    (∀ r ∈ (PostgresStorageType.delete_storage st id
        (some cfg) (some creds)).1.items, r.wallet_id ≠ id) ∧
    (∀ r ∈ (PostgresStorageType.delete_storage st id
        (some cfg) (some creds)).1.tags_encrypted, r.wallet_id ≠ id) ∧
    (∀ r ∈ (PostgresStorageType.delete_storage st id
        (some cfg) (some creds)).1.tags_plaintext, r.wallet_id ≠ id) ∧
    (∀ r ∈ st.items, r.wallet_id ≠ id →
      r ∈ (PostgresStorageType.delete_storage st id (some cfg) (some creds)).1.items) := by
  rw [delete_storage_of_admin st id cfg creds ha hp]
  refine ⟨?_, ?_, ?_, ?_, ?_, ?_⟩
  · show ((if (st.metadata.filter (ofWalletM id)).length = 0 then
        (.error .NotFound : Res Unit) else .ok ()) = .error .NotFound) ↔ _
    by_cases h0 : (st.metadata.filter (ofWalletM id)).length = 0
    · rw [if_pos h0]
      constructor
      · intro _ r hr
        have := List.filter_eq_nil_iff.mp (List.length_eq_zero.mp h0) r hr
        simpa [ofWalletM] using this
      · intro _
        rfl
    · rw [if_neg h0]
      constructor
      · intro h
        exact absurd h (by simp)
      · intro hall
        exfalso
        apply h0
        rw [List.length_eq_zero, List.filter_eq_nil_iff]
        intro a ha2
        simp [ofWalletM, hall a ha2]
  · show ∀ r ∈ st.metadata.filter (fun r => !(ofWalletM id r)), r.wallet_id ≠ id
    intro r hr
    have := (List.mem_filter.mp hr).2
    simpa [ofWalletM] using this
  · show ∀ r ∈ st.items.filter (fun r => !(ofWalletI id r)), r.wallet_id ≠ id
    intro r hr
    have := (List.mem_filter.mp hr).2
    simpa [ofWalletI] using this
  · show ∀ r ∈ st.tags_encrypted.filter (fun r => !(ofWalletE id r)), r.wallet_id ≠ id
    intro r hr
    have := (List.mem_filter.mp hr).2
    simpa [ofWalletE] using this
  · show ∀ r ∈ st.tags_plaintext.filter (fun r => !(ofWalletP id r)), r.wallet_id ≠ id
    intro r hr
    have := (List.mem_filter.mp hr).2
    simpa [ofWalletP] using this
  · show ∀ r ∈ st.items, r.wallet_id ≠ id →
      r ∈ st.items.filter (fun r => !(ofWalletI id r))
    intro r hr hne
    exact List.mem_filter.mpr ⟨hr, by simp [ofWalletI, hne]⟩

/-- Witness for the amended C8: deleting a wallet with no metadata row returns
`NotFound`. -/
theorem delete_storage_notfound_semantics_witness :
    (PostgresStorageType.delete_storage ⟨[], [], [], [], 0, 0⟩ "w"
      (some ⟨"url"⟩) (some ⟨"a", "p", some "adm", some "apw"⟩)).2 =
      .error .NotFound :=
  (delete_storage_notfound_semantics ⟨[], [], [], [], 0, 0⟩ "w" ⟨"url"⟩
      ⟨"a", "p", some "adm", some "apw"⟩ (by rfl) (by rfl)).1.mpr (by simp)

/-! ## C9: the up-front total count equals the enumerated record count -/

lemma drainCount_rows (st : DbState) :
    ∀ (fuel : Nat) (l : List ItemRow) (it : PostgresStorageIterator),
      it.rows = some l → it.options.retrieve_tags = false →
      l.length ≤ it.iter_count + fuel →
      drainCount st fuel it = l.length - it.iter_count := by
  intro fuel
  induction fuel with
  | zero =>
    intro l it hrows htags hle
    unfold drainCount
    omega
  | succ fuel ih =>
    intro l it hrows htags hle
    rw [drainCount]
    cases hget : l.get? it.iter_count with
    | none =>
      have hnext : PostgresStorageIterator.next st it = (.ok none, it) := by
        unfold PostgresStorageIterator.next
        rw [hrows]
        simp only [hget]
      rw [hnext]
      have := List.get?_eq_none.mp hget
      show (0 : Nat) = l.length - it.iter_count
      omega
    | some row =>
      have hnext : PostgresStorageIterator.next st it =
          (.ok (some ⟨row.name,
             (if it.options.retrieve_value then some ⟨row.value, row.key⟩ else none),
             (if it.options.retrieve_type then some row.type_ else none),
             none⟩),
           { it with iter_count := it.iter_count + 1 }) := by
        unfold PostgresStorageIterator.next
        rw [hrows]
        simp only [hget, htags]
        simp
      rw [hnext]
      have hlt : it.iter_count < l.length := by
        by_contra hcon
        rw [List.get?_eq_none.mpr (by omega)] at hget
        cases hget
      have hrec := ih l { it with iter_count := it.iter_count + 1 } hrows htags
        (by show l.length ≤ it.iter_count + 1 + fuel; omega)
      show drainCount st fuel { it with iter_count := it.iter_count + 1 } + 1 =
        l.length - it.iter_count
      rw [hrec]
      have hiter : ({ it with iter_count := it.iter_count + 1 } :
          PostgresStorageIterator).iter_count = it.iter_count + 1 := rfl
      rw [hiter]
      omega

/-- C9: over a fixed wallet state, the total count of a
`search(retrieveTotalCount = true, retrieveRecords = false)` equals the number
of records that draining a `search(retrieveRecords = true)` with the same type
filter and predicate tree yields before exhaustion. -/
theorem search_count_matches_enumeration
    (st : DbState) (w : String) (type_ : List Nat) (op : Operator) (fuel : Nat)
    (hfuel : (wqlMatching st type_ op).length ≤ fuel) :
    PostgresStorageIterator.get_total_count
        (PostgresStorage.search st w type_ op
          ⟨false, true, false, true, false⟩) =
      .ok (some (drainCount st fuel
        (PostgresStorage.search st w type_ op
          ⟨true, false, false, true, false⟩))) := by
  have hdrain : drainCount st fuel
      (PostgresStorage.search st w type_ op ⟨true, false, false, true, false⟩) =
      (wqlMatching st type_ op).length := by
    have h2 := drainCount_rows st fuel (wqlMatching st type_ op)
      (PostgresStorage.search st w type_ op ⟨true, false, false, true, false⟩)
      rfl rfl
      (by
        show (wqlMatching st type_ op).length ≤ 0 + fuel
        omega)
    exact h2.trans
      (show (wqlMatching st type_ op).length -
          (PostgresStorage.search st w type_ op
            ⟨true, false, false, true, false⟩).iter_count =
          (wqlMatching st type_ op).length from by
        show (wqlMatching st type_ op).length - 0 = (wqlMatching st type_ op).length
        omega)
  rw [hdrain]
  rfl

/-- Witness for C9 at a concrete wallet state with one matching and one
non-matching item. -/
theorem search_count_matches_enumeration_witness :
    PostgresStorageIterator.get_total_count
        (PostgresStorage.search
          ⟨[], [⟨"w", 0, [1], [2], [9], [9]⟩, ⟨"w", 1, [1], [3], [8], [8]⟩],
           [⟨"w", [5], [6], 0⟩], [], 2, 0⟩
          "w" [1] (Operator.eqEnc [5] [6]) ⟨false, true, false, true, false⟩) =
      .ok (some (drainCount
        ⟨[], [⟨"w", 0, [1], [2], [9], [9]⟩, ⟨"w", 1, [1], [3], [8], [8]⟩],
         [⟨"w", [5], [6], 0⟩], [], 2, 0⟩ 3
        (PostgresStorage.search
          ⟨[], [⟨"w", 0, [1], [2], [9], [9]⟩, ⟨"w", 1, [1], [3], [8], [8]⟩],
           [⟨"w", [5], [6], 0⟩], [], 2, 0⟩
          "w" [1] (Operator.eqEnc [5] [6]) ⟨true, false, false, true, false⟩))) :=
  search_count_matches_enumeration
    ⟨[], [⟨"w", 0, [1], [2], [9], [9]⟩, ⟨"w", 1, [1], [3], [8], [8]⟩],
     [⟨"w", [5], [6], 0⟩], [], 2, 0⟩
    "w" [1] (Operator.eqEnc [5] [6]) 3 (by decide)

end SovrinWallet
